import Mathlib

/-!
Verification development for the AI Data Agent repository: a shallow
embedding in Lean 4 of the table normalizer (`data_processor.py`) and the
query-routing / tabular-analysis engine (`ai_agent.py`), together with
theorems about the embedded code.

Modelling conventions, used throughout:

* Python/pandas floating-point values are modelled as `ℚ`; the float `NaN`
  (pandas' missing-value marker) is modelled as `none` in `Option ℚ`.
* Python strings are modelled as `String` / `List Char`.  The regex
  class `\s` / `str.isspace` is modelled by the complete CPython
  whitespace table; `\w` / `str.isalnum` and `str.lower` (a one-to-many
  full case mapping) are modelled exactly on the code-point regions the
  theorems evaluate, documented at each definition.
* pandas' unstable `quicksort` is modelled by the stable `List.mergeSort`;
  every property proved below is independent of the order of sort ties.
-/

namespace DataAgent

/-- Python `str.isalnum()` (= `Py_UNICODE_ISALNUM`: alphabetic, decimal,
digit or numeric), which together with the underscore makes up the regex
class `\w` for text patterns.  The model is exact on ASCII, on the whole
Latin-1 supplement (letters and the numeric signs `ª²³µ¹º¼½¾`), on Latin
Extended-A (U+0100–U+017F, all letters — this includes U+0130, exercised
by the theorems below), and on the combining diacritical marks
U+0300–U+036F (none alphanumeric); code points outside these regions are
not evaluated by any theorem in this file and default to false. -/
def pyIsAlnum (c : Char) : Bool :=
  let n := c.toNat
  decide ((48 ≤ n ∧ n ≤ 57) ∨ (65 ≤ n ∧ n ≤ 90) ∨ (97 ≤ n ∧ n ≤ 122) ∨
    n = 0xAA ∨ n = 0xB2 ∨ n = 0xB3 ∨ n = 0xB5 ∨ n = 0xB9 ∨ n = 0xBA ∨
    n = 0xBC ∨ n = 0xBD ∨ n = 0xBE ∨
    (0xC0 ≤ n ∧ n ≤ 0xD6) ∨ (0xD8 ≤ n ∧ n ≤ 0xF6) ∨ (0xF8 ≤ n ∧ n ≤ 0xFF) ∨
    (0x100 ≤ n ∧ n ≤ 0x17F))

/-- The Python regex class `\w` for text patterns: Unicode alphanumerics
plus the underscore. -/
def isWordChar (c : Char) : Bool := pyIsAlnum c || c == '_'

/-- Python `str.isspace()`, which is also the regex class `\s` for text
patterns and the character set stripped by `str.strip()`.  This is the
complete Unicode whitespace table of CPython: `\t\n\v\f\r`, the
information separators U+001C–U+001F, space, NEL (U+0085), NBSP (U+00A0),
U+1680, U+2000–U+200A, U+2028, U+2029, U+202F, U+205F and U+3000. -/
def isSpaceChar (c : Char) : Bool :=
  let n := c.toNat
  decide ((0x09 ≤ n ∧ n ≤ 0x0D) ∨ (0x1C ≤ n ∧ n ≤ 0x1F) ∨ n = 0x20 ∨
    n = 0x85 ∨ n = 0xA0 ∨ n = 0x1680 ∨ (0x2000 ≤ n ∧ n ≤ 0x200A) ∨
    n = 0x2028 ∨ n = 0x2029 ∨ n = 0x202F ∨ n = 0x205F ∨ n = 0x3000)

/-- Python `str.lower()` of one character, as the list of characters it
maps to.  Full case mapping is one-to-many: U+0130 (`İ`) lowercases to
`i` followed by the combining dot above U+0307 (the unconditional
SpecialCasing rule CPython applies).  The model is exact on ASCII (via
`Char.toLower`), on the Latin-1 supplement (`À`–`Þ` except `×` shift by
32; everything else, including `ß` and `µ`, is fixed), on U+0130, and on
the combining marks U+0300–U+036F (fixed); uppercase letters outside
these regions are left unchanged and are not evaluated by any theorem in
this file. -/
def pyLower (c : Char) : List Char :=
  if c.toNat = 0x130 then [Char.ofNat 0x69, Char.ofNat 0x307]
  else if 0xC0 ≤ c.toNat ∧ c.toNat ≤ 0xDE ∧ c.toNat ≠ 0xD7 then
    [Char.ofNat (c.toNat + 32)]
  else [Char.toLower c]

/-- Drop the leading and trailing characters satisfying `p`; models Python
`str.strip()` (with `p` = whitespace) and `str.strip('_')`. -/
def stripEnds (p : Char → Bool) (l : List Char) : List Char :=
  ((l.dropWhile p).reverse.dropWhile p).reverse

/-- Worker for `collapseRuns`; the boolean records whether the previous
character was part of a `p`-run. -/
def collapseRunsAux (p : Char → Bool) (rep : Char) : Bool → List Char → List Char
  | _, [] => []
  | inRun, c :: cs =>
    if p c then
      if inRun then collapseRunsAux p rep true cs
      else rep :: collapseRunsAux p rep true cs
    else c :: collapseRunsAux p rep false cs

/-- Replace every maximal run of characters satisfying `p` by the single
character `rep`; models Python `re.sub(pattern+, rep, s)` for a
single-character-class pattern. -/
def collapseRuns (p : Char → Bool) (rep : Char) (l : List Char) : List Char :=
  collapseRunsAux p rep false l

/-- Character-list core of `DataProcessor._clean_column_name`: strip
whitespace, replace `[^\w\s]` by `_`, replace `\s+` runs by `_`,
lowercase (`str.lower()`, whose full case mapping may expand a
character), collapse `_+` runs, strip `_` from both ends. -/
def cleanChars (l : List Char) : List Char :=
  let l1 := stripEnds isSpaceChar l
  let l2 := l1.map (fun c => if isWordChar c || isSpaceChar c then c else '_')
  let l3 := collapseRuns isSpaceChar '_' l2
  let l4 := l3.flatMap pyLower
  let l5 := collapseRuns (fun c => c == '_') '_' l4
  stripEnds (fun c => c == '_') l5

/-- Shallow embedding of `DataProcessor._clean_column_name` (the header is
modelled as a `String`, i.e. a non-NaN header; the `pd.isna` branch is the
caller's concern). Blank headers and headers that clean to the empty
string become `"unnamed_column"`. -/
def clean_column_name (col : String) : String :=
  if stripEnds isSpaceChar col.toList = [] then "unnamed_column"
  else
    let r := cleanChars col.toList
    if r = [] then "unnamed_column" else String.mk r


/-! ### Substring matching (Python `word in s`) -/

/-- Boolean test that `p` is a prefix of `s`, on character lists. -/
def hasPrefixCL : List Char → List Char → Bool
  | [], _ => true
  | _ :: _, [] => false
  | a :: as, b :: bs => a == b && hasPrefixCL as bs

/-- Boolean substring test on character lists: `pat` occurs contiguously in
`s`.  Models the Python expression `pat in s` on strings. -/
def containsCL (pat : List Char) : List Char → Bool
  | [] => pat.isEmpty
  | c :: rest => hasPrefixCL pat (c :: rest) || containsCL pat rest

/-- Python `pat in s` for strings. -/
def strContains (s pat : String) : Bool := containsCL pat.toList s.toList

/-- Python `s.lower()`: the concatenation of the full case mapping of
each character. -/
def strToLower (s : String) : String := String.mk (s.toList.flatMap pyLower)

/-- Python `any(word in q for word in kws)`. -/
def anyKeyword (kws : List String) (q : String) : Bool :=
  kws.any (fun w => strContains q w)

/-! ### Numeric helpers: pandas reductions with `skipna` semantics.

A pandas float column is a `List (Option ℚ)`; `none` is `NaN`.  Reductions
skip missing values; a reduction over no values yields `NaN` (= `none`),
except `sum`, which yields `0`. -/

/-- Non-missing values of a column, in order. -/
def presentVals (l : List (Option ℚ)) : List ℚ := l.filterMap id

/-- pandas `Series.count`: number of non-missing values. -/
def optCount (l : List (Option ℚ)) : Nat := (presentVals l).length

/-- pandas `Series.sum` (skipna; empty sum is 0). -/
def optSum (l : List (Option ℚ)) : ℚ := (presentVals l).sum

/-- pandas `Series.mean` (skipna; `NaN` when no values). -/
def optMean (l : List (Option ℚ)) : Option ℚ :=
  let xs := presentVals l
  if xs.length = 0 then none else some (xs.sum / xs.length)

/-- pandas `Series.min` (skipna; `NaN` when no values). -/
def optMin (l : List (Option ℚ)) : Option ℚ :=
  match presentVals l with
  | [] => none
  | x :: xs => some (xs.foldl min x)

/-- pandas `Series.max` (skipna; `NaN` when no values). -/
def optMax (l : List (Option ℚ)) : Option ℚ :=
  match presentVals l with
  | [] => none
  | x :: xs => some (xs.foldl max x)

/-- pandas `Series.median` (skipna): middle element of the sorted
non-missing values, or the average of the two middle elements. -/
def optMedian (l : List (Option ℚ)) : Option ℚ :=
  let xs := (presentVals l).mergeSort (fun a b => decide (a ≤ b))
  let n := xs.length
  if n = 0 then none
  else if n % 2 = 1 then some (xs.getD (n / 2) 0)
  else some ((xs.getD (n / 2 - 1) 0 + xs.getD (n / 2) 0) / 2)

/-- Rational approximation of the floating-point square root, via `Nat.sqrt`
at 6 decimal digits of precision.  Used only to render display strings
(standard deviations, Pearson denominators); no claim below depends on its
exact value. -/
def approxSqrt (q : ℚ) : ℚ :=
  if q ≤ 0 then 0
  else (Nat.sqrt (q * 10 ^ 12).floor.toNat : ℚ) / 10 ^ 6

/-- pandas `Series.std` (sample standard deviation, `ddof = 1`, skipna;
`NaN` with fewer than two values).  The square root is `approxSqrt`. -/
def optStd (l : List (Option ℚ)) : Option ℚ :=
  let xs := presentVals l
  let n := xs.length
  if n < 2 then none
  else
    let m := xs.sum / n
    some (approxSqrt ((xs.map (fun x => (x - m) ^ 2)).sum / (n - 1 : ℕ)))

/-! ### Decimal formatting (Python `f"{x:.kf}"`) and parsing.

Python formats the binary float with round-half-even at the requested
precision; the model rounds the rational with `round` (ties away from
the boundary differ only on exact midpoints, which no claim exercises). -/

/-- Pad a string on the left with zeros to length `k`. -/
def padZeros (k : Nat) (s : String) : String :=
  String.mk (List.replicate (k - s.length) '0') ++ s

/-- Python `f"{q:.precf}"` on a rational. -/
def fmtFixed (prec : Nat) (q : ℚ) : String :=
  let scaled : ℤ := round (q * (10 : ℚ) ^ prec)
  let sgn := if scaled < 0 then "-" else ""
  let n := scaled.natAbs
  sgn ++ toString (n / 10 ^ prec) ++ "." ++ padZeros prec (toString (n % 10 ^ prec))

/-- Python `f"{x:.2f}"` where `x` may be `NaN`. -/
def fmtOpt2 : Option ℚ → String
  | none => "nan"
  | some q => fmtFixed 2 q

/-- Python `f"{x:.3f}"` where `x` may be `NaN`. -/
def fmtOpt3 : Option ℚ → String
  | none => "nan"
  | some q => fmtFixed 3 q

/-- Value of the Python float `float(f"{q:.3f}")`: `q` rounded to three
decimal places (the binary representation error of the re-parsed float is
below any threshold a claim exercises and is not modelled). -/
def round3 (q : ℚ) : ℚ := (round (q * 1000) : ℤ) / 1000

/-- Python `str(float)` rendering, used only for bar-chart labels taken
from numeric columns.  Integers render with a trailing `.0`; other values
with six fixed decimals (the shortest-roundtrip rule of CPython is not
modelled; no claim depends on this rendering). -/
def pyFloatStr (q : ℚ) : String :=
  if q.den = 1 then toString q.num ++ ".0" else fmtFixed 6 q

/-! ### Numeric-literal parsing (`pd.to_numeric` / CSV type inference).

The accepted grammar is `[+|-] digits [. digits]` with at least one digit;
scientific notation is not modelled (no claim depends on which literals
are accepted, only on the all-or-nothing column policy). -/

/-- Digits of a nonempty all-digit character list, as a number. -/
def parseDigits : List Char → Option Nat
  | [] => none
  | l =>
    if l.all Char.isDigit then
      some (l.foldl (fun n c => 10 * n + (c.toNat - 48)) 0)
    else none

/-- Numeric literal on a character list, Python `float`-style. -/
def parseNumChars (l : List Char) : Option ℚ :=
  let sgnBody : ℚ × List Char :=
    match l with
    | '-' :: rest => (-1, rest)
    | '+' :: rest => (1, rest)
    | _ => (1, l)
  let sgn := sgnBody.1
  let body := sgnBody.2
  match body.span (fun c => c ≠ '.') with
  | (intPart, []) => (parseDigits intPart).map (fun n => sgn * n)
  | (intPart, _ :: fracPart) =>
    if intPart = [] ∧ fracPart = [] then none
    else
      match (if intPart = [] then some 0 else parseDigits intPart),
            (if fracPart = [] then some 0 else parseDigits fracPart) with
      | some ip, some fp =>
        some (sgn * ((ip : ℚ) + (fp : ℚ) / 10 ^ fracPart.length))
      | _, _ => none

/-- Numeric literal on a string. -/
def parseNumber (s : String) : Option ℚ := parseNumChars s.toList


/-! ### The Table data model.

A pandas `DataFrame` is modelled as an ordered list of named, typed
columns over an explicit row count; a numeric (`float64`) column holds
`Option ℚ` values and an `object` column holds `Option String` values
(`none` = `NaN` in both). -/

/-- Data of one column: numeric (`float64`) or text (`object`). -/
inductive ColData where
  | nums (vals : List (Option ℚ))
  | strs (vals : List (Option String))
deriving DecidableEq

/-- A named column. -/
structure NamedCol where
  name : String
  data : ColData
deriving DecidableEq

/-- A DataFrame: a row count and an ordered list of named columns.
`Valid` tables have every column of length `nrows`. -/
structure Table where
  nrows : Nat
  cols : List NamedCol
deriving DecidableEq

/-- Number of values stored in a column. -/
def ColData.length : ColData → Nat
  | nums v => v.length
  | strs v => v.length

/-- Structural well-formedness: every column has exactly `nrows` values. -/
def Table.Valid (t : Table) : Prop := ∀ c ∈ t.cols, c.data.length = t.nrows

/-- Is this a numeric (`float64`) column? -/
def ColData.isNums : ColData → Bool
  | nums _ => true
  | strs _ => false

/-- Look up a column's data by name (pandas `df[name]`); `find?` returns
the first match, as pandas does after duplicate columns are dropped. -/
def Table.findCol (t : Table) (name : String) : Option ColData :=
  (t.cols.find? (fun c => c.name == name)).map (fun c => c.data)

/-- Values of a numeric column (`[]` when absent or non-numeric; the
engine only calls this on names drawn from the numeric column list). -/
def getNums (t : Table) (name : String) : List (Option ℚ) :=
  match t.findCol name with
  | some (.nums v) => v
  | _ => []

/-- Values of an object column (`[]` when absent or non-text). -/
def getStrs (t : Table) (name : String) : List (Option String) :=
  match t.findCol name with
  | some (.strs v) => v
  | _ => []

/-- One cell of a column, as a tagged value (out-of-range reads give the
missing marker; the engine indexes only within `nrows`). -/
inductive CellVal where
  | qv (q : Option ℚ)
  | sv (s : Option String)
deriving DecidableEq

/-- Cell `i` of a column. -/
def ColData.cell : ColData → Nat → CellVal
  | .nums v, i => .qv (v.getD i none)
  | .strs v, i => .sv (v.getD i none)

/-- Row `i` of a table, one tagged cell per column. -/
def Table.row (t : Table) (i : Nat) : List CellVal :=
  t.cols.map (fun c => c.data.cell i)

/-- Is this cell the missing marker? -/
def CellVal.isMissing : CellVal → Bool
  | .qv none => true
  | .sv none => true
  | _ => false

/-- Reindex a column by a list of row indices. -/
def ColData.reindex : ColData → List Nat → ColData
  | .nums v, idx => .nums (idx.map (fun i => v.getD i none))
  | .strs v, idx => .strs (idx.map (fun i => v.getD i none))

/-- Select (and reorder) rows of a table by index list, as pandas row
selection does: a fresh frame, every column reindexed the same way. -/
def Table.selectRows (t : Table) (idx : List Nat) : Table :=
  ⟨idx.length, t.cols.map (fun c => ⟨c.name, c.data.reindex idx⟩)⟩

/-- Ascending comparison on possibly-missing keys with `NaN` sorted last
(pandas `sort_values` default `na_position = last`). -/
def leNaLast : Option ℚ → Option ℚ → Bool
  | some a, some b => decide (a ≤ b)
  | some _, none => true
  | none, some _ => false
  | none, none => true

/-- Descending comparison with `NaN` last (pandas
`sort_values(ascending=False)`). -/
def geNaLast : Option ℚ → Option ℚ → Bool
  | some a, some b => decide (b ≤ a)
  | some _, none => true
  | none, some _ => false
  | none, none => true

/-- Row permutation realised by sorting ascending on a numeric key column,
`NaN` last.  pandas' default unstable quicksort is modelled by the stable
`mergeSort`; every property proved below is tie-order independent. -/
def sortPermNums (vals : List (Option ℚ)) : List Nat :=
  (List.range vals.length).mergeSort
    (fun i j => leNaLast (vals.getD i none) (vals.getD j none))

/-- Shallow embedding of `df.sort_values(by=key)` (out of place,
`inplace=False` default: the operand frame is untouched and a new frame
is returned). -/
def sort_values (t : Table) (key : String) : Table :=
  t.selectRows (sortPermNums (getNums t key))

/-- Row indices whose key value is present (`nlargest`/`nsmallest` drop
`NaN` rows). -/
def presentIdx (vals : List (Option ℚ)) : List Nat :=
  (List.range vals.length).filter (fun i => (vals.getD i none).isSome)

/-- Key value at a present index (the default is never reached on indices
produced by `presentIdx`). -/
def valAt (vals : List (Option ℚ)) (i : Nat) : ℚ := (vals.getD i none).getD 0

/-- Shallow embedding of `df.nsmallest(n, col)`: the `n` rows with the
smallest key, `NaN` rows dropped, ties keeping the earlier row
(`keep=first` default). -/
def nsmallest (t : Table) (n : Nat) (col : String) : Table :=
  let vals := getNums t col
  t.selectRows
    (((presentIdx vals).mergeSort (fun i j => decide (valAt vals i ≤ valAt vals j))).take n)

/-- Shallow embedding of `df.nlargest(n, col)`: the `n` rows with the
largest key, `NaN` rows dropped, ties keeping the earlier row. -/
def nlargest (t : Table) (n : Nat) (col : String) : Table :=
  let vals := getNums t col
  t.selectRows
    (((presentIdx vals).mergeSort (fun i j => decide (valAt vals j ≤ valAt vals i))).take n)

/-! ### State-threaded DataFrame operations.

Each operation the query engine performs on its frame is paired with the
frame state after the call, as pandas defines it: `sort_values`,
`nsmallest` and `nlargest` are called with the default `inplace=False`
and return a fresh frame, leaving the operand unchanged.  The engine
below threads this state so that its non-mutation contract is a theorem
rather than a convention. -/

/-- `df.sort_values(by=key)` with the post-call state of `df`. -/
def sort_valuesS (t : Table) (key : String) : Table × Table := (sort_values t key, t)

/-- `df.nsmallest(n, col)` with the post-call state of `df`. -/
def nsmallestS (t : Table) (n : Nat) (col : String) : Table × Table := (nsmallest t n col, t)

/-- `df.nlargest(n, col)` with the post-call state of `df`. -/
def nlargestS (t : Table) (n : Nat) (col : String) : Table × Table := (nlargest t n col, t)

/-! ### The query engine (`ai_agent.py`) -/

/-- Result of `AIAgent._get_data_summary`. -/
structure DataSummary where
  columns : List String
  numeric_columns : List String
  categorical_columns : List String
  row_count : Nat
  column_count : Nat

/-- Shallow embedding of `AIAgent._get_data_summary`. -/
def get_data_summary (t : Table) : DataSummary :=
  { columns := t.cols.map (fun c => c.name)
    numeric_columns := (t.cols.filter (fun c => c.data.isNums)).map (fun c => c.name)
    categorical_columns := (t.cols.filter (fun c => !c.data.isNums)).map (fun c => c.name)
    row_count := t.nrows
    column_count := t.cols.length }

/-- One point of a line/bar chart: `label` and `value` (`none` = `NaN`). -/
structure ChartPoint where
  label : String
  value : Option ℚ
deriving DecidableEq

/-- Visualization payload of an `AnalysisResult`.  `empty` is the empty
mapping used by every fallback branch. -/
inductive Viz where
  | empty
  | line (data : List ChartPoint)
  | bar (data : List ChartPoint)
  | table (rows : List (List (String × String)))
deriving DecidableEq

/-- The engine's output contract: answer text, visualization, metadata. -/
structure AnalysisResult where
  answer : String
  visualization : Viz
  metadata : List (String × String)
deriving DecidableEq

/-- Keyword set of the trend intent. -/
def trend_keywords : List String := ["trend", "over time", "timeline", "change"]

/-- Keyword set of the statistics intent. -/
def stats_keywords : List String := ["statistics", "stats", "summary", "describe"]

/-- Keyword set of the comparison intent. -/
def comparison_keywords : List String := ["compare", "comparison", "vs", "versus", "difference"]

/-- Keyword set of the extremes intent. -/
def extremes_keywords : List String := ["top", "bottom", "highest", "lowest", "best", "worst"]

/-- Keyword set of the aggregates intent. -/
def aggregate_keywords : List String := ["average", "mean", "median", "total", "sum", "count"]

/-- Keyword set of the correlation intent. -/
def correlation_keywords : List String := ["correlation", "relationship", "relate", "connected"]

/-- The seven analysis intents. -/
inductive QueryType where
  | trend
  | statistics
  | comparison
  | extremes
  | aggregates
  | correlation
  | general
deriving DecidableEq

/-- The classification chain of `AIAgent.process_query`: first match wins,
in the source's fixed order, by case-insensitive substring matching. -/
def classify (query : String) : QueryType :=
  let ql := strToLower query
  if anyKeyword trend_keywords ql then .trend
  else if anyKeyword stats_keywords ql then .statistics
  else if anyKeyword comparison_keywords ql then .comparison
  else if anyKeyword extremes_keywords ql then .extremes
  else if anyKeyword aggregate_keywords ql then .aggregates
  else if anyKeyword correlation_keywords ql then .correlation
  else .general

/-- Python slice `l[start:stop]` for `start ≤ stop ≤ len l`. -/
def pySlice (start stop : Nat) (l : List α) : List α :=
  (l.drop start).take (stop - start)

/-- Shallow embedding of `AIAgent._analyze_trends`, threading the frame
state. -/
def analyze_trendsS (t : Table) (summary : DataSummary) : AnalysisResult × Table :=
  match summary.numeric_columns with
  | [] =>
    (⟨"I couldn\x27t find any numeric columns to analyze trends. Your data appears to be primarily categorical.",
      .empty, [("query_type", "trend_analysis")]⟩, t)
  | trend_col :: _ =>
    let vals := getNums t trend_col
    let chartT : List ChartPoint × Table :=
      if t.nrows ≤ 20 then
        ((List.range t.nrows).filterMap (fun i =>
          match vals.getD i none with
          | none => none
          | some x => some ⟨"Point " ++ toString (i + 1), some x⟩), t)
      else
        let bins := 10
        let st := sort_valuesS t trend_col
        let svals := getNums st.1 trend_col
        let bin_size := st.1.nrows / bins
        ((List.range bins).map (fun i =>
          let start_idx := i * bin_size
          let end_idx := if i < bins - 1 then start_idx + bin_size else st.1.nrows
          ⟨"Segment " ++ toString (i + 1), optMean (pySlice start_idx end_idx svals)⟩), st.2)
    let answer :=
      "Based on the data analysis:\n\nThe column \x27" ++ trend_col ++
      "\x27 shows the following trend:\n- Average value: " ++ fmtOpt2 (optMean vals) ++
      "\n- Range: " ++ fmtOpt2 (optMin vals) ++ " to " ++ fmtOpt2 (optMax vals) ++
      "\n- Standard deviation: " ++ fmtOpt2 (optStd vals) ++
      "\n\nThe data has been visualized to show the distribution pattern across the dataset."
    (⟨answer, .line chartT.1, [("query_type", "trend_analysis"), ("column", trend_col)]⟩, chartT.2)

/-- One table row of the statistics payload. -/
def statRow (t : Table) (col : String) : List (String × String) :=
  [("Column", col),
   ("Mean", fmtOpt2 (optMean (getNums t col))),
   ("Median", fmtOpt2 (optMedian (getNums t col))),
   ("Std Dev", fmtOpt2 (optStd (getNums t col))),
   ("Min", fmtOpt2 (optMin (getNums t col))),
   ("Max", fmtOpt2 (optMax (getNums t col)))]

/-- Shallow embedding of `AIAgent._generate_statistics`. -/
def generate_statisticsS (t : Table) (summary : DataSummary) : AnalysisResult × Table :=
  let stats_list := (summary.numeric_columns.take 5).map (statRow t)
  let answer :=
    "Here\x27s a statistical summary of your data:\n\nTotal rows: " ++ toString t.nrows ++
    "\nTotal columns: " ++ toString t.cols.length ++
    "\nNumeric columns: " ++ toString summary.numeric_columns.length ++
    "\nCategorical columns: " ++ toString summary.categorical_columns.length ++
    "\n\nKey statistics are shown in the table below for the main numeric columns."
  (⟨answer, .table stats_list, [("query_type", "statistics")]⟩, t)

/-- Shallow embedding of `df.groupby(gcol)[vcol].mean()`: group keys are
the distinct non-missing key strings in ascending order (`sort=True`
default, `NaN` groups dropped), each mapped to the skipna mean of the
value column over its rows. -/
def groupbyMean (keys : List (Option String)) (vals : List (Option ℚ)) :
    List (String × Option ℚ) :=
  (((keys.filterMap id).dedup).mergeSort (fun a b => decide (a ≤ b))).map (fun k =>
    (k, optMean ((keys.zip vals).filterMap
      (fun p => if p.1 = some k then some p.2 else none))))

/-- Shallow embedding of `AIAgent._compare_data`. -/
def compare_dataS (t : Table) (summary : DataSummary) : AnalysisResult × Table :=
  match summary.categorical_columns, summary.numeric_columns with
  | group_col :: _, value_col :: _ =>
    let grouped := ((groupbyMean (getStrs t group_col) (getNums t value_col)).mergeSort
      (fun a b => geNaLast a.2 b.2)).take 10
    let chart_data := grouped.map (fun p => ChartPoint.mk p.1 p.2)
    let answer :=
      "Comparison analysis of \x27" ++ value_col ++ "\x27 across different \x27" ++ group_col ++
      "\x27:\n\nThe top performing categories are shown in the chart. The highest average value is " ++
      fmtOpt2 (optMax (grouped.map (fun p => p.2))) ++
      " and the lowest among the top 10 is " ++
      fmtOpt2 (optMin (grouped.map (fun p => p.2))) ++ "."
    (⟨answer, .bar chart_data,
      [("query_type", "comparison"), ("group_by", group_col), ("metric", value_col)]⟩, t)
  | _, _ =>
    (⟨"I need both categorical and numeric columns to make comparisons. Please check your data structure.",
      .empty, [("query_type", "comparison")]⟩, t)

/-- Python `str(cell)` for a chart label: strings unchanged, floats via
their decimal rendering, missing values as `nan`. -/
def cellStr : CellVal → String
  | .sv (some s) => s
  | .sv none => "nan"
  | .qv (some q) => pyFloatStr q
  | .qv none => "nan"

/-- Shallow embedding of `AIAgent._find_extremes`. -/
def find_extremesS (t : Table) (query : String) (summary : DataSummary) :
    AnalysisResult × Table :=
  match summary.numeric_columns with
  | [] =>
    (⟨"I couldn\x27t find numeric columns to identify top or bottom values.",
      .empty, [("query_type", "extremes")]⟩, t)
  | target_col :: _ =>
    let is_bottom := anyKeyword ["bottom", "lowest", "worst", "minimum"] (strToLower query)
    let sel := if is_bottom then nsmallestS t 10 target_col else nlargestS t 10 target_col
    let top_data := sel.1
    let direction := if is_bottom then "lowest" else "highest"
    let names := t.cols.map (fun c => c.name)
    let label_col : Option String :=
      if names.length > 1 then
        some (if names.getD 0 "" ≠ target_col then names.getD 0 "" else names.getD 1 "")
      else none
    let tvals := getNums top_data target_col
    let chart_data :=
      match label_col with
      | some lc =>
        (List.range top_data.nrows).map (fun i =>
          ChartPoint.mk (cellStr (((top_data.findCol lc).getD (.strs [])).cell i))
            (tvals.getD i none))
      | none =>
        (List.range top_data.nrows).map (fun i =>
          ChartPoint.mk ("Row " ++ toString (i + 1)) (tvals.getD i none))
    let answer :=
      "Here are the " ++ direction ++ " values in \x27" ++ target_col ++
      "\x27:\n\nFound " ++ toString chart_data.length ++
      " entries with values ranging from " ++ fmtOpt2 (optMin tvals) ++
      " to " ++ fmtOpt2 (optMax tvals) ++ "."
    (⟨answer, .bar chart_data,
      [("query_type", "extremes"), ("column", target_col), ("direction", direction)]⟩, sel.2)

/-- Shallow embedding of `AIAgent._calculate_aggregates`. -/
def calculate_aggregatesS (t : Table) (summary : DataSummary) : AnalysisResult × Table :=
  match summary.numeric_columns with
  | [] =>
    (⟨"No numeric columns found for aggregate calculations.",
      .empty, [("query_type", "aggregates")]⟩, t)
  | _ =>
    let results := summary.numeric_columns.map (fun col =>
      [("Column", col),
       ("Sum", fmtFixed 2 (optSum (getNums t col))),
       ("Average", fmtOpt2 (optMean (getNums t col))),
       ("Median", fmtOpt2 (optMedian (getNums t col))),
       ("Count", toString (optCount (getNums t col)))])
    (⟨"Aggregate calculations for your numeric columns:\n\nI\x27ve calculated sum, average, median, and count for each numeric column in your dataset.",
      .table results, [("query_type", "aggregates")]⟩, t)

/-- Shallow embedding of `AIAgent._interpret_correlation`; the `NaN`
coefficient falls through every comparison to `Very Weak`, as the float
comparisons do in Python. -/
def interpret_correlation (corr : Option ℚ) : String :=
  match corr with
  | none => "Very Weak"
  | some r =>
    if |r| ≥ 7 / 10 then "Strong"
    else if |r| ≥ 2 / 5 then "Moderate"
    else if |r| ≥ 1 / 5 then "Weak"
    else "Very Weak"

/-- Pearson correlation of two columns as `DataFrame.corr` computes it:
pairwise-complete observations, `NaN` (= `none`) when a column is
constant or no paired observations exist.  The floating square root in
the denominator is modelled by `approxSqrt`; no claim depends on the
numeric value of a defined coefficient. -/
def pearson (xs ys : List (Option ℚ)) : Option ℚ :=
  let ps := (xs.zip ys).filterMap (fun p =>
    match p with
    | (some a, some b) => some (a, b)
    | _ => none)
  let n := ps.length
  if n = 0 then none
  else
    let mx := (ps.map (fun p => p.1)).sum / n
    let my := (ps.map (fun p => p.2)).sum / n
    let sxy := (ps.map (fun p => (p.1 - mx) * (p.2 - my))).sum
    let sxx := (ps.map (fun p => (p.1 - mx) ^ 2)).sum
    let syy := (ps.map (fun p => (p.2 - my) ^ 2)).sum
    if sxx = 0 ∨ syy = 0 then none
    else some (sxy / approxSqrt (sxx * syy))

/-- The loop order of `_analyze_correlations`: for each `i`, the pairs
`(cols[i], cols[j])` for all `j > i`. -/
def corrPairs : List String → List (String × String)
  | [] => []
  | c :: rest => rest.map (fun d => (c, d)) ++ corrPairs rest

/-- One emitted correlation entry (the table row holds the formatted
strings; the coefficient is kept to define the sort key). -/
structure CorrEntry where
  col1 : String
  col2 : String
  corr : Option ℚ
deriving DecidableEq

/-- Sort key `abs(float(entry["Correlation"]))`: the string
`f"{r:.3f}"` re-parsed by `float` is the coefficient rounded to three
decimals (`round3`), and `"nan"` re-parses to `NaN` (= `none`). -/
def corrSortKey (e : CorrEntry) : Option ℚ := e.corr.map (fun q => |round3 q|)

/-- Descending comparison on sort keys for the stable sort.  Python's
`list.sort` has implementation-defined behaviour when a key is the float
`NaN` (every comparison is false); the model orders a `NaN` key as if
largest.  No claim constrains entries with a `NaN` key. -/
def corrGe (a b : CorrEntry) : Bool :=
  match corrSortKey a, corrSortKey b with
  | some x, some y => decide (y ≤ x)
  | none, _ => true
  | some _, none => false

/-- The table row emitted for one correlation entry. -/
def corrRow (e : CorrEntry) : List (String × String) :=
  [("Column 1", e.col1), ("Column 2", e.col2),
   ("Correlation", fmtOpt3 e.corr), ("Strength", interpret_correlation e.corr)]

/-- Shallow embedding of `AIAgent._analyze_correlations`. -/
def analyze_correlationsS (t : Table) (summary : DataSummary) : AnalysisResult × Table :=
  if summary.numeric_columns.length < 2 then
    (⟨"I need at least two numeric columns to analyze correlations.",
      .empty, [("query_type", "correlation")]⟩, t)
  else
    let correlations := (corrPairs summary.numeric_columns).map (fun p =>
      CorrEntry.mk p.1 p.2 (pearson (getNums t p.1) (getNums t p.2)))
    let sorted := correlations.mergeSort corrGe
    let answer :=
      "Correlation analysis between numeric columns:\n\nFound " ++
      toString correlations.length ++
      " column pairs. The correlations range from -1 (perfect negative) to +1 (perfect positive).\n\nStrong correlations indicate that columns tend to change together."
    (⟨answer, .table ((sorted.take 10).map corrRow), [("query_type", "correlation")]⟩, t)

/-- Shallow embedding of `AIAgent._general_analysis`. -/
def general_analysisS (t : Table) (summary : DataSummary) : AnalysisResult × Table :=
  let insights :=
    ["Your dataset contains " ++ toString t.nrows ++ " rows and " ++
      toString t.cols.length ++ " columns."] ++
    (if summary.numeric_columns.isEmpty then [] else
      ["There are " ++ toString summary.numeric_columns.length ++
        " numeric columns for quantitative analysis."]) ++
    (if summary.categorical_columns.isEmpty then [] else
      ["There are " ++ toString summary.categorical_columns.length ++
        " categorical columns for grouping and segmentation."])
  match summary.numeric_columns with
  | [] => (⟨String.intercalate "\n" insights, .empty, [("query_type", "general")]⟩, t)
  | _ =>
    let chart_data := (summary.numeric_columns.take 5).map (fun col =>
      ChartPoint.mk col (optMean (getNums t col)))
    (⟨String.intercalate "\n" insights ++
        "\n\nThe chart shows average values for your main numeric columns.",
      .bar chart_data, [("query_type", "general")]⟩, t)

/-- Shallow embedding of `AIAgent.process_query`, threading the frame
state through every branch. -/
def process_queryS (t : Table) (query : String) : AnalysisResult × Table :=
  let summary := get_data_summary t
  match classify query with
  | .trend => analyze_trendsS t summary
  | .statistics => generate_statisticsS t summary
  | .comparison => compare_dataS t summary
  | .extremes => find_extremesS t query summary
  | .aggregates => calculate_aggregatesS t summary
  | .correlation => analyze_correlationsS t summary
  | .general => general_analysisS t summary

/-- The engine's answer: `AIAgent.process_query` as the caller sees it. -/
def process_query (t : Table) (query : String) : AnalysisResult :=
  (process_queryS t query).1

/-! ### The table normalizer (`data_processor.py`): cleaning pipeline -/

/-- Rename every column through `_clean_column_name`
(`df.columns = [self._clean_column_name(col) for col in df.columns]`). -/
def renameCols (t : Table) : Table :=
  ⟨t.nrows, t.cols.map (fun c => ⟨clean_column_name c.name, c.data⟩)⟩

/-- Worker for `dedupCols`: keep the first column of each name. -/
def dedupColsAux : List String → List NamedCol → List NamedCol
  | _, [] => []
  | seen, c :: rest =>
    if seen.contains c.name then dedupColsAux seen rest
    else c :: dedupColsAux (c.name :: seen) rest

/-- Drop later duplicate column names
(`df.loc[:, ~df.columns.duplicated()]`). -/
def dedupCols (t : Table) : Table := ⟨t.nrows, dedupColsAux [] t.cols⟩

/-- Drop rows whose cells are all missing (`df.dropna(how=all)`). -/
def dropna_all (t : Table) : Table :=
  t.selectRows ((List.range t.nrows).filter (fun i =>
    (t.row i).any (fun c => !c.isMissing)))

/-- Is row `i` an exact duplicate of an earlier row?  pandas `duplicated`
(default `keep=first`) treats missing markers as equal, which structural
equality of the model cells also does. -/
def isDupRow (t : Table) (i : Nat) : Bool :=
  (List.range i).any (fun j => t.row j == t.row i)

/-- Drop exact duplicate rows, keeping the first occurrence
(`df.drop_duplicates()`). -/
def drop_duplicates (t : Table) : Table :=
  t.selectRows ((List.range t.nrows).filter (fun i => !isDupRow t i))

/-- pandas `df.duplicated().sum()`: the number of rows equal to some
earlier row. -/
def duplicatedCount (t : Table) : Nat :=
  ((List.range t.nrows).filter (fun i => isDupRow t i)).length

/-- Whitespace-strip every string value of every object column
(`df[col] = df[col].str.strip()` for object columns). -/
def stripStrings (t : Table) : Table :=
  ⟨t.nrows, t.cols.map (fun c =>
    ⟨c.name,
      match c.data with
      | .strs v => .strs (v.map (Option.map (fun s => String.mk (stripEnds isSpaceChar s.toList))))
      | d => d⟩)⟩

/-- Shallow embedding of `pd.to_numeric(col, errors=ignore)` on an object
column: if every non-missing value parses as a numeric literal the whole
column is converted, otherwise the input column is returned unchanged
(the documented all-or-nothing behaviour of `errors=ignore`). -/
def to_numeric_ignore (v : List (Option String)) : ColData :=
  if (v.filterMap id).all (fun s => (parseNumber s).isSome) then
    .nums (v.map (fun o => o.bind parseNumber))
  else .strs v

/-- Numeric coercion pass of `_clean_dataframe`: every object column goes
through `to_numeric_ignore`; numeric columns are untouched. -/
def coerceNumeric (t : Table) : Table :=
  ⟨t.nrows, t.cols.map (fun c =>
    ⟨c.name,
      match c.data with
      | .strs v => to_numeric_ignore v
      | d => d⟩)⟩

/-- Shallow embedding of `DataProcessor._clean_dataframe`: rename columns,
drop duplicate column names, drop all-missing rows, drop duplicate rows,
strip string values, coerce numeric-looking object columns.  The initial
`df.copy()` is the identity in the functional model. -/
def clean_dataframe (t : Table) : Table :=
  coerceNumeric (stripStrings (drop_duplicates (dropna_all (dedupCols (renameCols t)))))

/-! ### Quality issues and metadata (`_detect_quality_issues`, `_analyze_data`) -/

/-- Distinct non-missing values of an object column
(pandas `Series.nunique`, which excludes `NaN`). -/
def nuniqueStrs (v : List (Option String)) : Nat := ((v.filterMap id).dedup).length

/-- Number of missing values of a column. -/
def missingCount : ColData → Nat
  | .nums v => (v.filter (fun o => o.isNone)).length
  | .strs v => (v.filter (fun o => o.isNone)).length

/-- Shallow embedding of `DataProcessor._detect_quality_issues`.  On an
empty frame the Python percentage `x / len(df) * 100` is the float `NaN`
(numpy division by zero), and `NaN > 50` and `ratio < 0.01` are false, so
no per-column issue fires; the model guards the division accordingly. -/
def detect_quality_issues (t : Table) : List String :=
  (t.cols.filterMap (fun c =>
    if t.nrows = 0 then none
    else
      let null_pct : ℚ := (missingCount c.data : ℚ) / t.nrows * 100
      if null_pct > 50 then
        some ("Column \x27" ++ c.name ++ "\x27 has " ++ fmtFixed 1 null_pct ++ "% missing values")
      else none)) ++
  (if duplicatedCount t > 0 then
    ["Found " ++ toString (duplicatedCount t) ++ " duplicate rows"]
   else []) ++
  (let unnamed := t.cols.filter (fun c => strContains (strToLower c.name) "unnamed")
   if unnamed.isEmpty then []
   else ["Found " ++ toString unnamed.length ++ " unnamed columns"]) ++
  (t.cols.filterMap (fun c =>
    match c.data with
    | .strs v =>
      if t.nrows = 0 then none
      else
        let unique_ratio : ℚ := (nuniqueStrs v : ℚ) / t.nrows
        if unique_ratio < 1 / 100 ∧ t.nrows > 100 then
          some ("Column \x27" ++ c.name ++ "\x27 has very low variety (" ++
            fmtFixed 1 (unique_ratio * 100) ++ "% unique values)")
        else none
    | .nums _ => none))

/-- A value of the 10-row data preview: missing values become an explicit
null marker, numeric values floats, strings stay strings. -/
inductive PreviewVal where
  | null
  | num (q : ℚ)
  | text (s : String)
deriving DecidableEq

/-- Preview rendering of one cell. -/
def previewCell : CellVal → PreviewVal
  | .qv none => .null
  | .qv (some q) => .num q
  | .sv none => .null
  | .sv (some s) => .text s

/-- pandas dtype name of a column in the model (`int64` columns are
subsumed by the `ℚ`-valued `float64` model). -/
def dtypeName : ColData → String
  | .nums _ => "float64"
  | .strs _ => "object"

/-- Metadata returned by `_analyze_data`. -/
structure Metadata where
  sheet_names : List String
  column_mapping : List (String × String)
  row_count : Nat
  data_preview : List (List (String × PreviewVal))
  data_quality_issues : List String
deriving DecidableEq

/-- Shallow embedding of `DataProcessor._analyze_data`. -/
def analyze_data (t : Table) (sheet_names : List String) : Metadata :=
  { sheet_names := sheet_names
    column_mapping := t.cols.map (fun c => (c.name, dtypeName c.data))
    row_count := t.nrows
    data_preview := (List.range (min 10 t.nrows)).map (fun i =>
      t.cols.map (fun c => (c.name, previewCell (c.data.cell i))))
    data_quality_issues := detect_quality_issues t }

/-! ### CSV bytes: text decodings and the read model (`_read_csv`).

Bytes are `Nat` (0–255) and decoded text is a list of Unicode code
points.  The CSV parse is a simplified model of `pd.read_csv`: lines are
split on the newline code point (blank lines skipped, as
`skip_blank_lines=True` does), fields on the comma code point, with no
quoting rules; a data row with more fields than the header raises the
parser error (the C tokenizer's `saw more fields` failure), a short row
is padded with missing values; empty fields are missing; a column whose
non-missing fields all parse as numeric literals is type-inferred as
numeric.  Inputs with no lines fail to parse (pandas raises
`EmptyDataError` there; the model folds that into parse failure).
pandas' renaming of blank headers to `Unnamed: N` is not modelled — no
claim depends on it. -/

/-- Is this byte a UTF-8 continuation byte? -/
def isContByte (b : Nat) : Bool := 0x80 ≤ b && b ≤ 0xBF

/-- UTF-8 decoding of a byte list to code points, `none` on invalid input
(overlong forms, surrogates, out-of-range and truncated sequences
rejected, as Python's `utf-8` codec rejects them). -/
def utf8Decode : List Nat → Option (List Nat)
  | [] => some []
  | b :: bs =>
    if b ≤ 0x7F then (utf8Decode bs).map (fun r => b :: r)
    else if b < 0xC2 then none
    else if b ≤ 0xDF then
      match bs with
      | b1 :: rest =>
        if isContByte b1 then
          (utf8Decode rest).map (fun r => ((b - 0xC0) * 0x40 + (b1 - 0x80)) :: r)
        else none
      | [] => none
    else if b ≤ 0xEF then
      match bs with
      | b1 :: b2 :: rest =>
        if isContByte b1 && isContByte b2 then
          let cp := (b - 0xE0) * 0x1000 + (b1 - 0x80) * 0x40 + (b2 - 0x80)
          if cp < 0x800 ∨ (0xD800 ≤ cp ∧ cp ≤ 0xDFFF) then none
          else (utf8Decode rest).map (fun r => cp :: r)
        else none
      | _ => none
    else if b ≤ 0xF4 then
      match bs with
      | b1 :: b2 :: b3 :: rest =>
        if isContByte b1 && isContByte b2 && isContByte b3 then
          let cp := (b - 0xF0) * 0x40000 + (b1 - 0x80) * 0x1000 +
            (b2 - 0x80) * 0x40 + (b3 - 0x80)
          if cp < 0x10000 ∨ cp > 0x10FFFF then none
          else (utf8Decode rest).map (fun r => cp :: r)
        else none
      | _ => none
    else none

/-- Latin-1 (and its alias ISO-8859-1) decoding: every byte is its own
code point; decoding never fails. -/
def latin1Decode (bs : List Nat) : List Nat := bs

/-- CP1252 decoding of one byte: the 0x80–0x9F block maps through the
Windows-1252 table, five bytes of it being undefined; every other byte is
its own code point. -/
def cp1252Byte (b : Nat) : Option Nat :=
  if b = 0x80 then some 0x20AC
  else if b = 0x82 then some 0x201A
  else if b = 0x83 then some 0x0192
  else if b = 0x84 then some 0x201E
  else if b = 0x85 then some 0x2026
  else if b = 0x86 then some 0x2020
  else if b = 0x87 then some 0x2021
  else if b = 0x88 then some 0x02C6
  else if b = 0x89 then some 0x2030
  else if b = 0x8A then some 0x0160
  else if b = 0x8B then some 0x2039
  else if b = 0x8C then some 0x0152
  else if b = 0x8E then some 0x017D
  else if b = 0x91 then some 0x2018
  else if b = 0x92 then some 0x2019
  else if b = 0x93 then some 0x201C
  else if b = 0x94 then some 0x201D
  else if b = 0x95 then some 0x2022
  else if b = 0x96 then some 0x2013
  else if b = 0x97 then some 0x2014
  else if b = 0x98 then some 0x02DC
  else if b = 0x99 then some 0x2122
  else if b = 0x9A then some 0x0161
  else if b = 0x9B then some 0x203A
  else if b = 0x9C then some 0x0153
  else if b = 0x9E then some 0x017E
  else if b = 0x9F then some 0x0178
  else if b = 0x81 ∨ b = 0x8D ∨ b = 0x8F ∨ b = 0x90 ∨ b = 0x9D then none
  else some b

/-- CP1252 decoding of a byte list (`none` on any undefined byte). -/
def cp1252Decode (bs : List Nat) : Option (List Nat) := bs.mapM cp1252Byte

/-- The four encodings `_read_csv` attempts, in source order. -/
inductive EncName where
  | utf8
  | latin1
  | iso8859_1
  | cp1252
deriving DecidableEq

/-- Decoding function of each encoding name. -/
def decodeWith : EncName → List Nat → Option (List Nat)
  | .utf8 => utf8Decode
  | .latin1 => fun bs => some (latin1Decode bs)
  | .iso8859_1 => fun bs => some (latin1Decode bs)
  | .cp1252 => cp1252Decode

/-- The fixed encoding list of `_read_csv`. -/
def encodings : List EncName := [.utf8, .latin1, .iso8859_1, .cp1252]

/-- Split a code-point list on a separator, yielding at least one
(possibly empty) segment. -/
def splitOnCp (sep : Nat) : List Nat → List (List Nat)
  | [] => [[]]
  | c :: rest =>
    let r := splitOnCp sep rest
    if c = sep then [] :: r
    else
      match r with
      | [] => [[c]]
      | h :: tl => (c :: h) :: tl

/-- String of a code-point list. -/
def cpsToString (cps : List Nat) : String := String.mk (cps.map Char.ofNat)

/-- A CSV field as a cell: the empty field is missing. -/
def fieldToCell (cps : List Nat) : Option String :=
  if cps.isEmpty then none else some (cpsToString cps)

/-- Column `j` of the data rows, padded with missing for short rows. -/
def csvColumn (rows : List (List (List Nat))) (j : Nat) : List (Option String) :=
  rows.map (fun r =>
    match r.getD j [] with
    | cell => fieldToCell cell)

/-- Parse decoded CSV text into a table with read-time numeric type
inference (`pd.read_csv`, simplified as described above). -/
def parseCsvCps (cps : List Nat) : Option Table :=
  let lines := (splitOnCp 10 cps).filter (fun l => !l.isEmpty)
  match lines with
  | [] => none
  | header :: dataRows =>
    let headerCells := splitOnCp 44 header
    let rows := dataRows.map (splitOnCp 44)
    if rows.any (fun r => r.length > headerCells.length) then none
    else
      some ⟨rows.length,
        (List.range headerCells.length).map (fun j =>
          ⟨cpsToString (headerCells.getD j []),
            to_numeric_ignore (csvColumn rows j)⟩)⟩

/-- One attempt of the `_read_csv` loop: decode with the given encoding,
then parse; `none` is the caught `UnicodeDecodeError`/`ParserError`. -/
def tryEncoding (e : EncName) (bs : List Nat) : Option Table :=
  (decodeWith e bs).bind parseCsvCps

/-- Shallow embedding of `DataProcessor._read_csv`: the first encoding
whose decode and parse both succeed wins; `none` is the final
`ValueError` after all four fail. -/
def read_csv (bs : List Nat) : Option Table :=
  encodings.findSome? (fun e => tryEncoding e bs)

/-- Python `filename.endswith(suffix)`. -/
def strEndsWith (s suf : String) : Bool :=
  hasPrefixCL suf.toList.reverse s.toList.reverse

/-- Shallow embedding of `DataProcessor.process_file`, CSV path: read,
clean, analyze.  The spreadsheet branch and the unsupported-extension
`ValueError` are outside every claim and are folded into `none`. -/
def process_file (bs : List Nat) (filename : String) : Option (Table × Metadata) :=
  if strEndsWith filename ".csv" then
    (read_csv bs).map (fun df =>
      let cleaned := clean_dataframe df
      (cleaned, analyze_data cleaned []))
  else none

/-! ### Concrete inputs used to instantiate the theorems below -/

/-- A table with one text column and no numeric column. -/
def tblCat : Table := ⟨2, [⟨"name", .strs [some "a", some "b"]⟩]⟩

/-- A table with one numeric column of five values. -/
def tblSales : Table :=
  ⟨5, [⟨"sales", .nums [some 10, some 20, some 30, some 40, some 50]⟩]⟩

/-- A 21-row numeric table (exercising the binned trend branch). -/
def tblTrend : Table :=
  ⟨21, [⟨"v", .nums ((List.range 21).map (fun i => some ((21 - i : ℕ) : ℚ)))⟩]⟩

/-- A table whose second row duplicates its first. -/
def tblDup : Table :=
  ⟨3, [⟨"A", .strs [some "x", some "x", some "y"]⟩,
       ⟨"B", .nums [some 1, some 1, some 2]⟩]⟩

/-- A table with one object column mixing numeric and non-numeric text. -/
def tblMixed : Table := ⟨2, [⟨"mixed", .strs [some "1", some "x"]⟩]⟩

/-- A table with two numeric columns. -/
def tblCorr : Table :=
  ⟨3, [⟨"x", .nums [some 1, some 2, some 3]⟩,
       ⟨"y", .nums [some 2, some 4, some 6]⟩]⟩

/-- CSV bytes `a\n` followed by the CP1252-encoded left double quotation
mark (byte `0x93`), which is invalid as UTF-8. -/
def bytesCp1252 : List Nat := [0x61, 10, 0x93]

/-- Plain ASCII CSV bytes `b\n1`. -/
def bytesPlain : List Nat := [0x62, 10, 0x31]

/-! ## Theorems -/

/-- **C2**, counterexample.  The claim that every query containing both
`average` and `compare` executes the comparison branch fails: the query
`compare average change` contains both words but also the trend keyword
`change`, which is matched first, so the trend branch (not comparison) is
selected. -/
theorem c2_counterexample :
    strContains (strToLower "compare average change") "average" = true ∧
    strContains (strToLower "compare average change") "compare" = true ∧
    classify "compare average change" = QueryType.trend ∧
    classify "compare average change" ≠ QueryType.comparison :=
  ⟨by decide, by decide, by decide, by decide⟩

/-- **C2** (amended).  Classification is first-match-wins over the fixed
priority order trend, statistics, comparison, extremes, aggregates,
correlation, general (this is the definition of `classify`, mirroring the
source's if-chain).  For every query containing both `average` and
`compare` (case-insensitively), the aggregates branch is never executed;
if the query additionally matches no trend and no statistics keyword, the
comparison branch is executed. -/
theorem c2_classification_priority (q : String)
    (hav : strContains (strToLower q) "average" = true)
    (hcm : strContains (strToLower q) "compare" = true) :
    classify q ≠ QueryType.aggregates ∧
    (anyKeyword trend_keywords (strToLower q) = false →
      anyKeyword stats_keywords (strToLower q) = false →
      classify q = QueryType.comparison) := by
  have hc : anyKeyword comparison_keywords (strToLower q) = true := by
    unfold anyKeyword comparison_keywords
    simp only [List.any_cons, List.any_nil, Bool.or_eq_true]
    exact Or.inl hcm
  rcases Bool.eq_false_or_eq_true (anyKeyword trend_keywords (strToLower q)) with h1 | h1
  · refine ⟨by simp [classify, h1], fun h _ => ?_⟩
    rw [h] at h1; simp at h1
  · rcases Bool.eq_false_or_eq_true (anyKeyword stats_keywords (strToLower q)) with h2 | h2
    · refine ⟨by simp [classify, h1, h2], fun _ h => ?_⟩
      rw [h] at h2; simp at h2
    · exact ⟨by simp [classify, h1, h2, hc], fun _ _ => by simp [classify, h1, h2, hc]⟩

/-- Witness for **C2**: the query `compare average sales` contains both
`average` and `compare`, matches no trend or statistics keyword, and is
classified as comparison. -/
theorem c2_classification_priority_witness :
    classify "compare average sales" = QueryType.comparison :=
  (c2_classification_priority "compare average sales" (by decide) (by decide)).2
    (by decide) (by decide)

/-- **C1**.  The embedded `process_query` is a total function on tables
and query strings (no exception path exists in the model), and every
intent whose precondition is unsatisfied returns the source's explanatory
answer with the empty visualization: trend/extremes/aggregates with no
numeric column, comparison with no categorical or no numeric column, and
correlation with fewer than two numeric columns. -/
theorem c1_degenerate_fallbacks (t : Table) (q : String) :
    (classify q = QueryType.trend → (get_data_summary t).numeric_columns = [] →
      process_query t q =
        ⟨"I couldn\x27t find any numeric columns to analyze trends. Your data appears to be primarily categorical.",
         .empty, [("query_type", "trend_analysis")]⟩) ∧
    (classify q = QueryType.comparison →
      ((get_data_summary t).categorical_columns = [] ∨
        (get_data_summary t).numeric_columns = []) →
      process_query t q =
        ⟨"I need both categorical and numeric columns to make comparisons. Please check your data structure.",
         .empty, [("query_type", "comparison")]⟩) ∧
    (classify q = QueryType.extremes → (get_data_summary t).numeric_columns = [] →
      process_query t q =
        ⟨"I couldn\x27t find numeric columns to identify top or bottom values.",
         .empty, [("query_type", "extremes")]⟩) ∧
    (classify q = QueryType.aggregates → (get_data_summary t).numeric_columns = [] →
      process_query t q =
        ⟨"No numeric columns found for aggregate calculations.",
         .empty, [("query_type", "aggregates")]⟩) ∧
    (classify q = QueryType.correlation →
      (get_data_summary t).numeric_columns.length < 2 →
      process_query t q =
        ⟨"I need at least two numeric columns to analyze correlations.",
         .empty, [("query_type", "correlation")]⟩) := by
  refine ⟨fun hcl hpre => ?_, fun hcl hpre => ?_, fun hcl hpre => ?_,
    fun hcl hpre => ?_, fun hcl hpre => ?_⟩
  · simp only [process_query, process_queryS, hcl, analyze_trendsS, hpre]
  · rcases hpre with h | h
    · simp only [process_query, process_queryS, hcl, compare_dataS, h]
    · simp only [process_query, process_queryS, hcl, compare_dataS, h]
      cases hcc : (get_data_summary t).categorical_columns <;> simp
  · simp only [process_query, process_queryS, hcl, find_extremesS, hpre]
  · simp only [process_query, process_queryS, hcl, calculate_aggregatesS, hpre]
  · simp only [process_query, process_queryS, hcl, analyze_correlationsS, hpre,
      if_true, if_pos]

/-- Witness for **C1**: a table with no numeric columns and a correlation
query produce scenario C's fallback answer with the empty visualization. -/
theorem c1_degenerate_fallbacks_witness :
    process_query tblCat "show correlation" =
      ⟨"I need at least two numeric columns to analyze correlations.",
       .empty, [("query_type", "correlation")]⟩ :=
  (c1_degenerate_fallbacks tblCat "show correlation").2.2.2.2 (by decide) (by decide)

/-- **C4**, code-bug evidence.  `process_file` runs `_clean_dataframe`
(which drops duplicate rows) before `_analyze_data` runs
`_detect_quality_issues`, so the detector counts duplicates on the
already-deduplicated frame.  On a table whose pre-dedup duplicate-row
count is 1, cleaning leaves 2 rows and the emitted quality-issue list is
empty — no issue stating the pre-dedup count is ever produced. -/
theorem c4_duplicate_issue_suppressed :
    duplicatedCount tblDup = 1 ∧
    (clean_dataframe tblDup).nrows = 2 ∧
    (analyze_data (clean_dataframe tblDup) []).data_quality_issues = [] :=
  ⟨by with_unfolding_all decide, by with_unfolding_all decide,
   by with_unfolding_all decide⟩

/-- **C5**, counterexample.  The CP1252-encoded bytes `a\n«0x93»` are
invalid as UTF-8 and decode under CP1252 to `a\n` followed by U+201C.
`_read_csv` succeeds — but via latin-1, the second encoding in the list,
which maps byte `0x93` to the C1 control character U+0093; the resulting
text cell is not the correctly decoded CP1252 character. -/
theorem c5_counterexample :
    utf8Decode bytesCp1252 = none ∧
    cp1252Decode bytesCp1252 = some [0x61, 10, 0x201C] ∧
    read_csv bytesCp1252 =
      some ⟨1, [⟨"a", .strs [some (String.mk [Char.ofNat 0x93])]⟩]⟩ ∧
    String.mk [Char.ofNat 0x93] ≠ String.mk [Char.ofNat 0x201C] :=
  ⟨by decide, by decide, by with_unfolding_all decide, by decide⟩

/-- **C5** (amended).  For CSV bytes invalid as UTF-8, `_read_csv`
succeeds whenever the latin-1 decoding parses as CSV, and the resulting
table is the one obtained from the latin-1 decoding (latin-1 precedes
ISO-8859-1 and CP1252 in the list and decodes every byte sequence).  The
latin-1 decoding agrees with CP1252 exactly on bytes outside `0x80–0x9F`;
on every byte inside that block the CP1252 decoding differs (or is
undefined), so correctly decoded CP1252 text results only when no byte of
that block occurs. -/
theorem c5_latin1_fallback :
    (∀ bs t, utf8Decode bs = none → parseCsvCps (latin1Decode bs) = some t →
      read_csv bs = some t) ∧
    (∀ b : Nat, b ≤ 0xFF → (b < 0x80 ∨ 0xA0 ≤ b) → cp1252Byte b = some b) ∧
    (∀ b : Nat, 0x80 ≤ b → b ≤ 0x9F → cp1252Byte b ≠ some b) := by
  refine ⟨?_, ?_, ?_⟩
  · intro bs t hu hp
    have h1 : tryEncoding EncName.utf8 bs = none := by
      simp [tryEncoding, decodeWith, hu]
    have h2 : tryEncoding EncName.latin1 bs = some t := by
      simpa [tryEncoding, decodeWith] using hp
    unfold read_csv encodings
    simp [List.findSome?_cons, h1, h2]
  · intro b hb h
    interval_cases b <;> revert h <;> decide
  · intro b h1 h2
    interval_cases b <;> decide

/-- Witness for **C5**: on the concrete CP1252 bytes the amended theorem
yields the latin-1-decoded table. -/
theorem c5_latin1_fallback_witness :
    read_csv bytesCp1252 =
      some ⟨1, [⟨"a", .strs [some (String.mk [Char.ofNat 0x93])]⟩]⟩ :=
  c5_latin1_fallback.1 bytesCp1252
    ⟨1, [⟨"a", .strs [some (String.mk [Char.ofNat 0x93])]⟩]⟩
    (by decide) (by with_unfolding_all decide)

/-- **C10**.  Latin-1 decodes every byte sequence, so the reader's final
failure can never be caused by every encoding failing to decode: if
`_read_csv` fails, then in particular the parse of the (always
successful) latin-1 decoding failed with a parser error; and any byte
input whose latin-1 decoding parses as CSV yields a table. -/
theorem c10_latin1_makes_decode_total :
    (∀ bs, decodeWith EncName.latin1 bs = some (latin1Decode bs)) ∧
    (∀ bs, read_csv bs = none → parseCsvCps (latin1Decode bs) = none) ∧
    (∀ bs t, parseCsvCps (latin1Decode bs) = some t → ∃ u, read_csv bs = some u) := by
  have key : ∀ bs, read_csv bs = none → parseCsvCps (latin1Decode bs) = none := by
    intro bs hfail
    unfold read_csv at hfail
    rw [List.findSome?_eq_none_iff] at hfail
    have h := hfail EncName.latin1 (by decide)
    unfold tryEncoding decodeWith at h
    simpa using h
  refine ⟨fun bs => rfl, key, fun bs t hp => ?_⟩
  rcases Option.eq_none_or_eq_some (read_csv bs) with h | ⟨u, h⟩
  · rw [key bs h] at hp; cases hp
  · exact ⟨u, h⟩

/-- Witness for **C10**: the ASCII bytes `b\n1` parse under latin-1 and
the reader yields a table. -/
theorem c10_latin1_makes_decode_total_witness :
    ∃ u, read_csv bytesPlain = some u :=
  c10_latin1_makes_decode_total.2.2 bytesPlain ⟨1, [⟨"b", .nums [some 1]⟩]⟩
    (by with_unfolding_all decide)

/-- **C6**.  Numeric coercion is column-wide all-or-nothing: every column
of a cleaned table is either numeric, or a text column containing at
least one non-missing value that does not parse as a numeric literal.  In
particular no column mixes converted and unconverted non-missing values —
a text column all of whose values parse would have been converted. -/
theorem c6_coercion_all_or_nothing (t : Table) :
    ∀ c ∈ (clean_dataframe t).cols,
      c.data.isNums = true ∨
      ∃ v, c.data = .strs v ∧ ∃ o ∈ v, ∃ s, o = some s ∧ parseNumber s = none := by
  intro c hc
  unfold clean_dataframe coerceNumeric at hc
  simp only [List.mem_map] at hc
  obtain ⟨c0, _, rfl⟩ := hc
  cases hd : c0.data with
  | nums v => left; simp [hd, ColData.isNums]
  | strs v =>
    simp only [hd]
    unfold to_numeric_ignore
    rcases Bool.eq_false_or_eq_true
        ((v.filterMap id).all (fun s => (parseNumber s).isSome)) with hall | hall
    · left; simp [hall, ColData.isNums]
    · right
      refine ⟨v, by simp [hall], ?_⟩
      obtain ⟨s, hs, hps⟩ := List.all_eq_false.mp hall
      obtain ⟨o, ho, hos⟩ := List.mem_filterMap.mp hs
      refine ⟨o, ho, s, ?_, ?_⟩
      · simpa using hos
      · simpa using hps

/-- Witness for **C6**: the cleaned mixed column stays text and exhibits
the non-parsing value `x`. -/
theorem c6_coercion_all_or_nothing_witness :
    (⟨"mixed", ColData.strs [some "1", some "x"]⟩ : NamedCol).data.isNums = true ∨
    ∃ v, (⟨"mixed", ColData.strs [some "1", some "x"]⟩ : NamedCol).data = .strs v ∧
      ∃ o ∈ v, ∃ s, o = some s ∧ parseNumber s = none :=
  c6_coercion_all_or_nothing tblMixed ⟨"mixed", .strs [some "1", some "x"]⟩
    (by with_unfolding_all decide)

/-- Frame state of the trend branch: the operand is unchanged. -/
theorem analyze_trendsS_snd (t : Table) (s : DataSummary) :
    (analyze_trendsS t s).2 = t := by
  unfold analyze_trendsS
  cases s.numeric_columns with
  | nil => rfl
  | cons c rest => by_cases h : t.nrows ≤ 20 <;> simp [h, sort_valuesS]

/-- Frame state of the statistics branch. -/
theorem generate_statisticsS_snd (t : Table) (s : DataSummary) :
    (generate_statisticsS t s).2 = t := rfl

/-- Frame state of the comparison branch. -/
theorem compare_dataS_snd (t : Table) (s : DataSummary) :
    (compare_dataS t s).2 = t := by
  unfold compare_dataS
  cases s.categorical_columns <;> cases s.numeric_columns <;> rfl

/-- Frame state of the extremes branch. -/
theorem find_extremesS_snd (t : Table) (q : String) (s : DataSummary) :
    (find_extremesS t q s).2 = t := by
  unfold find_extremesS
  cases s.numeric_columns with
  | nil => rfl
  | cons c rest =>
    by_cases h : anyKeyword ["bottom", "lowest", "worst", "minimum"] (strToLower q) = true <;>
      simp [h, nsmallestS, nlargestS]

/-- Frame state of the aggregates branch. -/
theorem calculate_aggregatesS_snd (t : Table) (s : DataSummary) :
    (calculate_aggregatesS t s).2 = t := by
  unfold calculate_aggregatesS
  cases s.numeric_columns <;> rfl

/-- Frame state of the correlation branch. -/
theorem analyze_correlationsS_snd (t : Table) (s : DataSummary) :
    (analyze_correlationsS t s).2 = t := by
  unfold analyze_correlationsS
  by_cases h : s.numeric_columns.length < 2 <;> simp [h]

/-- Frame state of the general branch. -/
theorem general_analysisS_snd (t : Table) (s : DataSummary) :
    (general_analysisS t s).2 = t := by
  unfold general_analysisS
  cases s.numeric_columns <;> rfl

/-- **C9**.  The query engine never mutates the table it is given: in the
state-threaded embedding, whose frame-level operations carry the pandas
post-call state (`sort_values`, `nsmallest`, `nlargest` all called with
the default `inplace=False`), the frame that comes back from
`process_query` is exactly the frame that went in, for every table and
query. -/
theorem c9_no_mutation (t : Table) (q : String) : (process_queryS t q).2 = t := by
  unfold process_queryS
  generalize classify q = k
  cases k <;>
    simp [analyze_trendsS_snd, generate_statisticsS_snd, compare_dataS_snd,
      find_extremesS_snd, calculate_aggregatesS_snd, analyze_correlationsS_snd,
      general_analysisS_snd]

/-- The pair loop of `_analyze_correlations` emits one entry per `i < j`
index pair: `n * (n - 1) / 2` of them. -/
theorem corrPairs_length (l : List String) :
    (corrPairs l).length = l.length * (l.length - 1) / 2 := by
  have h : ∀ m : List String, (corrPairs m).length = Nat.choose m.length 2 := by
    intro m
    induction m with
    | nil => simp [corrPairs]
    | cons c rest ih =>
      simp only [corrPairs, List.length_append, List.length_map, ih, List.length_cons]
      rw [Nat.choose_succ_succ, Nat.choose_one_right, Nat.add_comm]
  rw [h, Nat.choose_two_right]

/-- Membership in `corrPairs`: exactly the pairs of positions `i < j`. -/
theorem corrPairs_mem (l : List String) (p : String × String) :
    p ∈ corrPairs l ↔
      ∃ i j, i < j ∧ j < l.length ∧ p = (l.getD i "", l.getD j "") := by
  induction l generalizing p with
  | nil =>
    simp only [corrPairs, List.not_mem_nil, List.length_nil, false_iff]
    rintro ⟨i, j, hij, hj, -⟩
    omega
  | cons c rest ih =>
    simp only [corrPairs, List.mem_append, List.mem_map, ih, List.length_cons]
    constructor
    · rintro (⟨d, hd, rfl⟩ | ⟨i, j, hij, hj, rfl⟩)
      · obtain ⟨n, hn, rfl⟩ := List.mem_iff_getElem.mp hd
        refine ⟨0, n + 1, by omega, by omega, ?_⟩
        simp [List.getD_cons_succ, List.getD_eq_getElem?_getD, List.getElem?_eq_getElem hn]
      · refine ⟨i + 1, j + 1, by omega, by omega, ?_⟩
        simp [List.getD_cons_succ]
    · rintro ⟨i, j, hij, hj, rfl⟩
      cases i with
      | zero =>
        cases j with
        | zero => omega
        | succ jr =>
          left
          refine ⟨rest.getD jr "", ?_, ?_⟩
          · have hjr : jr < rest.length := by omega
            simp [List.getD_eq_getElem?_getD, List.getElem?_eq_getElem hjr,
              List.getElem_mem]
          · simp [List.getD_cons_succ]
      | succ ir =>
        cases j with
        | zero => omega
        | succ jr =>
          right
          exact ⟨ir, jr, by omega, by omega, by simp [List.getD_cons_succ]⟩

/-- `corrGe` is transitive. -/
theorem corrGe_trans (a b c : CorrEntry) :
    corrGe a b = true → corrGe b c = true → corrGe a c = true := by
  unfold corrGe
  cases corrSortKey a <;> cases corrSortKey b <;> cases corrSortKey c <;>
    simp <;> intro h1 h2 <;> exact le_trans h2 h1

/-- `corrGe` is total. -/
theorem corrGe_total (a b : CorrEntry) : (corrGe a b || corrGe b a) = true := by
  unfold corrGe
  cases corrSortKey a <;> cases corrSortKey b <;> simp [le_total]

/-- The strength labels of `_interpret_correlation` match the documented
thresholds exactly. -/
theorem interpret_correlation_spec (r : ℚ) :
    (interpret_correlation (some r) = "Strong" ↔ 7 / 10 ≤ |r|) ∧
    (interpret_correlation (some r) = "Moderate" ↔ 2 / 5 ≤ |r| ∧ |r| < 7 / 10) ∧
    (interpret_correlation (some r) = "Weak" ↔ 1 / 5 ≤ |r| ∧ |r| < 2 / 5) ∧
    (interpret_correlation (some r) = "Very Weak" ↔ |r| < 1 / 5) := by
  have hs : interpret_correlation (some r) =
      (if |r| ≥ 7 / 10 then "Strong"
       else if |r| ≥ 2 / 5 then "Moderate"
       else if |r| ≥ 1 / 5 then "Weak"
       else "Very Weak") := rfl
  by_cases h1 : |r| ≥ (7 : ℚ) / 10
  · rw [hs, if_pos h1]
    refine ⟨⟨fun _ => h1, fun _ => rfl⟩, ?_, ?_, ?_⟩
    · exact ⟨fun hx => absurd hx (by decide), fun hx => absurd h1 (not_le.mpr hx.2)⟩
    · exact ⟨fun hx => absurd hx (by decide), fun hx => by linarith [hx.2]⟩
    · exact ⟨fun hx => absurd hx (by decide), fun hx => by linarith⟩
  · rw [hs, if_neg h1]
    by_cases h2 : |r| ≥ (2 : ℚ) / 5
    · rw [if_pos h2]
      refine ⟨?_, ?_, ?_, ?_⟩
      · exact ⟨fun hx => absurd hx (by decide), fun hge => absurd hge h1⟩
      · exact ⟨fun _ => ⟨h2, lt_of_not_le h1⟩, fun _ => rfl⟩
      · exact ⟨fun hx => absurd hx (by decide), fun hx => by linarith [hx.2]⟩
      · exact ⟨fun hx => absurd hx (by decide), fun hx => by linarith⟩
    · by_cases h3 : |r| ≥ (1 : ℚ) / 5
      · rw [if_neg h2, if_pos h3]
        refine ⟨?_, ?_, ?_, ?_⟩
        · exact ⟨fun hx => absurd hx (by decide), fun hge => absurd hge h1⟩
        · exact ⟨fun hx => absurd hx (by decide), fun hx => absurd hx.1 h2⟩
        · exact ⟨fun _ => ⟨h3, lt_of_not_le h2⟩, fun _ => rfl⟩
        · exact ⟨fun hx => absurd hx (by decide), fun hx => by linarith⟩
      · rw [if_neg h2, if_neg h3]
        refine ⟨?_, ?_, ?_, ?_⟩
        · exact ⟨fun hx => absurd hx (by decide), fun hge => absurd hge h1⟩
        · exact ⟨fun hx => absurd hx (by decide), fun hx => absurd hx.1 h2⟩
        · exact ⟨fun hx => absurd hx (by decide), fun hx => absurd hx.1 h3⟩
        · exact ⟨fun _ => lt_of_not_le h3, fun _ => rfl⟩

/-- **C7**.  With at least two numeric columns, the correlation branch
builds one entry per index pair `i < j` of the numeric column list (no
self-pairs; `n * (n - 1) / 2` entries in total, and every `i < j` pair
occurs), labels each entry by the documented `|r|` thresholds, stably
sorts the entries descending by `|r|` re-parsed from the 3-decimal
formatted string (= the coefficient rounded to 3 decimals), and puts only
the first 10 into the table payload. -/
theorem c7_correlation_branch (t : Table)
    (h2 : 2 ≤ (get_data_summary t).numeric_columns.length) :
    ∃ sorted : List CorrEntry,
      List.Perm sorted ((corrPairs (get_data_summary t).numeric_columns).map (fun p =>
        CorrEntry.mk p.1 p.2 (pearson (getNums t p.1) (getNums t p.2)))) ∧
      List.Pairwise (fun a b => ∀ x y, a.corr = some x → b.corr = some y →
        |round3 y| ≤ |round3 x|) sorted ∧
      (analyze_correlationsS t (get_data_summary t)).1.visualization =
        Viz.table ((sorted.take 10).map corrRow) ∧
      (sorted.take 10).length =
        min 10 (corrPairs (get_data_summary t).numeric_columns).length ∧
      (corrPairs (get_data_summary t).numeric_columns).length =
        (get_data_summary t).numeric_columns.length *
          ((get_data_summary t).numeric_columns.length - 1) / 2 ∧
      (∀ p ∈ corrPairs (get_data_summary t).numeric_columns,
        ∃ i j, i < j ∧ j < (get_data_summary t).numeric_columns.length ∧
          p = ((get_data_summary t).numeric_columns.getD i "",
               (get_data_summary t).numeric_columns.getD j "")) ∧
      (∀ i j, i < j → j < (get_data_summary t).numeric_columns.length →
        ((get_data_summary t).numeric_columns.getD i "",
         (get_data_summary t).numeric_columns.getD j "") ∈
          corrPairs (get_data_summary t).numeric_columns) ∧
      (∀ r : ℚ,
        (interpret_correlation (some r) = "Strong" ↔ 7 / 10 ≤ |r|) ∧
        (interpret_correlation (some r) = "Moderate" ↔ 2 / 5 ≤ |r| ∧ |r| < 7 / 10) ∧
        (interpret_correlation (some r) = "Weak" ↔ 1 / 5 ≤ |r| ∧ |r| < 2 / 5) ∧
        (interpret_correlation (some r) = "Very Weak" ↔ |r| < 1 / 5)) := by
  refine ⟨((corrPairs (get_data_summary t).numeric_columns).map (fun p =>
      CorrEntry.mk p.1 p.2 (pearson (getNums t p.1) (getNums t p.2)))).mergeSort corrGe,
    List.mergeSort_perm _ _, ?_, ?_, ?_, corrPairs_length _,
    fun p hp => (corrPairs_mem _ p).mp hp,
    fun i j hij hj => (corrPairs_mem _ _).mpr ⟨i, j, hij, hj, rfl⟩,
    interpret_correlation_spec⟩
  · refine (List.sorted_mergeSort corrGe_trans corrGe_total _).imp ?_
    intro a b hab x y hax hby
    have ha : corrSortKey a = some |round3 x| := by simp [corrSortKey, hax]
    have hb : corrSortKey b = some |round3 y| := by simp [corrSortKey, hby]
    unfold corrGe at hab
    rw [ha, hb] at hab
    simpa using hab
  · have hlt : ¬ ((get_data_summary t).numeric_columns.length < 2) := by omega
    simp only [analyze_correlationsS, if_neg hlt]
  · simp [List.length_take, List.length_mergeSort, List.length_map]

/-- Witness for **C7**: on a two-numeric-column table the branch emits
exactly `2 * 1 / 2 = 1` pair. -/
theorem c7_correlation_branch_witness :
    (corrPairs (get_data_summary tblCorr).numeric_columns).length =
      (get_data_summary tblCorr).numeric_columns.length *
        ((get_data_summary tblCorr).numeric_columns.length - 1) / 2 := by
  obtain ⟨s, -, -, -, -, h, -⟩ := c7_correlation_branch tblCorr (by decide)
  exact h

/-- On a table with pairwise-distinct column names, `find?` by a member
column's name returns that column. -/
theorem find_name_nodup (cols : List NamedCol)
    (hnd : (cols.map (fun c => c.name)).Nodup) (nc : NamedCol) (h : nc ∈ cols) :
    cols.find? (fun c => c.name == nc.name) = some nc := by
  induction cols with
  | nil => cases h
  | cons a rest ih =>
    rcases List.mem_cons.mp h with rfl | hmem
    · simp
    · have hne : ¬ (a.name == nc.name) = true := by
        simp only [beq_iff_eq]
        intro he
        have hin : nc.name ∈ rest.map (fun c => c.name) := List.mem_map_of_mem _ hmem
        rw [← he] at hin
        exact (List.nodup_cons.mp hnd).1 hin
      have hstep : List.find? (fun c => c.name == nc.name) (a :: rest) =
          List.find? (fun c => c.name == nc.name) rest :=
        List.find?_cons_of_neg _ hne
      rw [hstep]
      exact ih (List.nodup_cons.mp hnd).2 hmem

/-- Reading a member numeric column by name yields its values. -/
theorem getNums_of_mem (t : Table) (hnd : (t.cols.map (fun c => c.name)).Nodup)
    (nc : NamedCol) (h : nc ∈ t.cols) (v : List (Option ℚ))
    (hd : nc.data = ColData.nums v) :
    getNums t nc.name = v := by
  unfold getNums Table.findCol
  rw [find_name_nodup t.cols hnd nc h]
  simp [hd]

/-- Reading a column of a row-selected table yields the reindexed
values. -/
theorem getNums_selectRows (t : Table) (hnd : (t.cols.map (fun c => c.name)).Nodup)
    (nc : NamedCol) (h : nc ∈ t.cols) (v : List (Option ℚ))
    (hd : nc.data = ColData.nums v) (idx : List Nat) :
    getNums (t.selectRows idx) nc.name = idx.map (fun j => v.getD j none) := by
  unfold Table.selectRows getNums Table.findCol
  rw [List.find?_map]
  have : ((fun c : NamedCol => c.name == nc.name) ∘
      fun c : NamedCol => (⟨c.name, c.data.reindex idx⟩ : NamedCol)) =
      (fun c : NamedCol => c.name == nc.name) := rfl
  rw [this, find_name_nodup t.cols hnd nc h]
  simp [hd, ColData.reindex]

/-- The number of rows selected by the sort permutation is the column
length. -/
theorem sortPermNums_length (v : List (Option ℚ)) :
    (sortPermNums v).length = v.length := by
  unfold sortPermNums
  simp

/-- `leNaLast` is transitive. -/
theorem leNaLast_trans (a b c : Option ℚ) :
    leNaLast a b = true → leNaLast b c = true → leNaLast a c = true := by
  cases a <;> cases b <;> cases c <;> simp [leNaLast] <;> exact fun h1 h2 => le_trans h1 h2

/-- `leNaLast` is total. -/
theorem leNaLast_total (a b : Option ℚ) : (leNaLast a b || leNaLast b a) = true := by
  cases a <;> cases b <;> simp [leNaLast, le_total]

/-- Generic bin-concatenation identity: `k` equal slices of width `b`
followed by the tail from position `k * b` recover the list. -/
theorem joinBins (b : Nat) : ∀ (k : Nat) (l : List α),
    (((List.range k).map (fun i => (l.drop (i * b)).take b)).flatten) ++ l.drop (k * b) = l := by
  intro k
  induction k with
  | zero => simp
  | succ k ih =>
    intro l
    rw [List.range_succ, List.map_append, List.flatten_append]
    simp only [List.map_cons, List.map_nil, List.flatten_cons, List.flatten_nil, List.append_nil]
    have hd : l.drop ((k + 1) * b) = (l.drop (k * b)).drop b := by
      rw [List.drop_drop]
      congr 1
      ring
    rw [hd, List.append_assoc, List.take_append_drop]
    exact ih l

/-- The 10 trend bins (`i*b` to `i*b+b` for `i < 9`, then the remainder)
concatenate to the whole list: no row is omitted or duplicated. -/
theorem tenBins_join (l : List α) (r : Nat) (hl : l.length = r) (hb : 10 * (r / 10) ≤ r) :
    ((List.range 10).map (fun i =>
      pySlice (i * (r / 10)) (if i < 9 then i * (r / 10) + r / 10 else r) l)).flatten = l := by
  have h9 : (10 : Nat) = 9 + 1 := rfl
  rw [h9, List.range_succ, List.map_append]
  have hmap : (List.range 9).map (fun i =>
      pySlice (i * (r / 10)) (if i < 9 then i * (r / 10) + r / 10 else r) l) =
      (List.range 9).map (fun i => (l.drop (i * (r / 10))).take (r / 10)) := by
    apply List.map_congr_left
    intro i hi
    have : i < 9 := List.mem_range.mp hi
    rw [if_pos this]
    unfold pySlice
    congr 1
    omega
  have hlast : pySlice (9 * (r / 10)) (if (9 : Nat) < 9 then 9 * (r / 10) + r / 10 else r) l =
      l.drop (9 * (r / 10)) := by
    rw [if_neg (by omega)]
    unfold pySlice
    apply List.take_of_length_le
    simp [List.length_drop, hl]
  rw [hmap]
  simp only [List.map_cons, List.map_nil, hlast, List.flatten_append, List.flatten_cons,
    List.flatten_nil, List.append_nil]
  exact joinBins (r / 10) 9 l

/-- Length of a Python slice. -/
theorem pySlice_length (s e : Nat) (l : List α) :
    (pySlice s e l).length = min (e - s) (l.length - s) := by
  unfold pySlice
  simp

/-- **C3**.  On a well-formed table (distinct column names, columns of
length `nrows`) with a first numeric column and more than 20 rows, the
trend branch emits the 10-point line chart whose point `i` is labeled
`Segment i+1` and valued at the mean of the `i`-th contiguous bin of the
rows sorted ascending by the first numeric column; the sort permutation
is a permutation of all row indices; the 10 bins concatenate to exactly
the sorted row sequence; the first 9 bins have `nrows / 10` rows each and
the last bin the remainder; and the sorted key column is ascending. -/
theorem c3_trend_binning (t : Table) (nm : String) (rest : List String)
    (hv : t.Valid) (hnd : (t.cols.map (fun c => c.name)).Nodup)
    (hnm : (get_data_summary t).numeric_columns = nm :: rest)
    (hr : 20 < t.nrows) :
    (analyze_trendsS t (get_data_summary t)).1.visualization =
      Viz.line ((List.range 10).map (fun i =>
        ⟨"Segment " ++ toString (i + 1),
          optMean (pySlice (i * (t.nrows / 10))
            (if i < 9 then i * (t.nrows / 10) + t.nrows / 10 else t.nrows)
            ((sortPermNums (getNums t nm)).map (fun j => (getNums t nm).getD j none)))⟩)) ∧
    List.Perm (sortPermNums (getNums t nm)) (List.range t.nrows) ∧
    ((List.range 10).map (fun i =>
        pySlice (i * (t.nrows / 10))
          (if i < 9 then i * (t.nrows / 10) + t.nrows / 10 else t.nrows)
          (sortPermNums (getNums t nm)))).flatten = sortPermNums (getNums t nm) ∧
    (∀ i, i < 9 →
      (pySlice (i * (t.nrows / 10)) (i * (t.nrows / 10) + t.nrows / 10)
        (sortPermNums (getNums t nm))).length = t.nrows / 10) ∧
    (pySlice (9 * (t.nrows / 10)) t.nrows (sortPermNums (getNums t nm))).length =
      t.nrows - 9 * (t.nrows / 10) ∧
    List.Pairwise (fun a b => leNaLast a b = true)
      ((sortPermNums (getNums t nm)).map (fun j => (getNums t nm).getD j none)) := by
  have hsum : (get_data_summary t).numeric_columns =
      (t.cols.filter (fun c => c.data.isNums)).map (fun c => c.name) := rfl
  have hnm2 := hnm
  rw [hsum] at hnm2
  obtain ⟨nc, fcols, hf, hname, -⟩ := List.map_eq_cons_iff.mp hnm2
  have hmemf : nc ∈ t.cols.filter (fun c => c.data.isNums) := by
    rw [hf]; exact List.mem_cons_self _ _
  have hmem : nc ∈ t.cols := (List.mem_filter.mp hmemf).1
  have hnum : nc.data.isNums = true := (List.mem_filter.mp hmemf).2
  obtain ⟨v, hd⟩ : ∃ v, nc.data = ColData.nums v := by
    cases hdd : nc.data with
    | nums v => exact ⟨v, rfl⟩
    | strs v => rw [hdd] at hnum; cases hnum
  have hlen : v.length = t.nrows := by
    have hc := hv nc hmem
    rw [hd] at hc
    exact hc
  have hget : getNums t nm = v := by
    rw [← hname]; exact getNums_of_mem t hnd nc hmem v hd
  have hdivle : 10 * (t.nrows / 10) ≤ t.nrows := by
    have := Nat.div_mul_le_self t.nrows 10
    omega
  have hplen : (sortPermNums (getNums t nm)).length = t.nrows := by
    rw [hget, sortPermNums_length, hlen]
  have hsv : getNums (sort_values t nm) nm =
      (sortPermNums (getNums t nm)).map (fun j => (getNums t nm).getD j none) := by
    unfold sort_values
    rw [hget, ← hname]
    exact getNums_selectRows t hnd nc hmem v hd (sortPermNums v)
  have hsrows : (sort_values t nm).nrows = t.nrows := by
    show (sortPermNums (getNums t nm)).length = t.nrows
    exact hplen
  refine ⟨?_, ?_, ?_, ?_, ?_, ?_⟩
  · simp only [analyze_trendsS, hnm]
    rw [if_neg (by omega : ¬ t.nrows ≤ 20)]
    simp only [sort_valuesS]
    rw [hsv, hsrows]
  · rw [hget]
    unfold sortPermNums
    rw [hlen]
    exact List.mergeSort_perm _ _
  · exact tenBins_join _ _ hplen hdivle
  · intro i hi
    rw [pySlice_length, hplen]
    have h8 : i * (t.nrows / 10) ≤ 8 * (t.nrows / 10) :=
      Nat.mul_le_mul_right _ (by omega)
    omega
  · rw [pySlice_length, hplen]
    omega
  · rw [hget, List.pairwise_map]
    unfold sortPermNums
    exact @List.sorted_mergeSort _
      (fun i j => leNaLast (v.getD i none) (v.getD j none))
      (fun a b c hab hbc => leNaLast_trans _ _ _ hab hbc)
      (fun a b => leNaLast_total _ _) _

/-- Witness for **C3**: on the 21-row table the sort permutation permutes
all 21 row indices and the 10 bins concatenate to it. -/
theorem c3_trend_binning_witness :
    List.Perm (sortPermNums (getNums tblTrend "v")) (List.range tblTrend.nrows) ∧
    ((List.range 10).map (fun i =>
        pySlice (i * (tblTrend.nrows / 10))
          (if i < 9 then i * (tblTrend.nrows / 10) + tblTrend.nrows / 10 else tblTrend.nrows)
          (sortPermNums (getNums tblTrend "v")))).flatten =
      sortPermNums (getNums tblTrend "v") := by
  obtain ⟨-, h1, h2, -, -, -⟩ :=
    c3_trend_binning tblTrend "v" []
      (by unfold Table.Valid; with_unfolding_all decide)
      (by decide) (by decide) (by decide)
  exact ⟨h1, h2⟩

/-- Characters with equal code points are equal. -/
theorem char_eq_of_toNat_eq {c d : Char} (h : c.toNat = d.toNat) : c = d :=
  Char.eq_of_val_eq (UInt32.toNat.inj h)

/-- Code point of `Char.toLower` on an ASCII upper-case letter. -/
theorem toLower_toNat_upper (c : Char) (h : 65 ≤ c.toNat ∧ c.toNat ≤ 90) :
    (Char.toLower c).toNat = c.toNat + 32 := by
  simp only [Char.toLower]
  rw [if_pos ⟨h.1, h.2⟩]
  have hv : c.val.toBitVec.toNat + 32 < 55296 := by
    have hbr : c.val.toBitVec.toNat = c.toNat := rfl
    omega
  simp only [Char.ofNat, Char.ofNatAux, Char.toNat, UInt32.toNat, Nat.isValidChar]
  split
  · rfl
  · omega

/-- `Char.toLower` fixes everything outside the upper-case range. -/
theorem toLower_eq_self (c : Char) (h : ¬(65 ≤ c.toNat ∧ c.toNat ≤ 90)) :
    Char.toLower c = c := by
  simp only [Char.toLower]
  rw [if_neg]
  exact fun hc => h ⟨hc.1, hc.2⟩

/-- Word characters are never whitespace (the alphanumeric regions and
the complete whitespace table are disjoint). -/
theorem wordChar_not_space (c : Char) (h : isWordChar c = true) :
    isSpaceChar c = false := by
  rcases Bool.eq_false_or_eq_true (isSpaceChar c) with hs | hs
  · exfalso
    simp only [isWordChar, Bool.or_eq_true, pyIsAlnum, decide_eq_true_eq,
      beq_iff_eq] at h
    simp only [isSpaceChar, decide_eq_true_eq] at hs
    rcases h with h | rfl
    · omega
    · exact absurd hs (by decide)
  · exact hs

/-- On code points below the Latin-1 uppercase block, `pyLower` is the
singleton ASCII lowering. -/
theorem pyLower_eq_single (c : Char) (hA : c.toNat < 0xC0) :
    pyLower c = [Char.toLower c] := by
  unfold pyLower
  rw [if_neg (by omega), if_neg (by omega)]

/-- An ASCII word character after lowering: still a word character,
still ASCII, and a fixed point of the full case mapping. -/
theorem ascii_word_toLower_fp (c : Char) (hA : c.toNat < 128)
    (h : isWordChar c = true) :
    isWordChar (Char.toLower c) = true ∧ (Char.toLower c).toNat < 128 ∧
    pyLower (Char.toLower c) = [Char.toLower c] := by
  by_cases hu : 65 ≤ c.toNat ∧ c.toNat ≤ 90
  · have ht := toLower_toNat_upper c hu
    refine ⟨?_, by omega, ?_⟩
    · simp only [isWordChar, Bool.or_eq_true, pyIsAlnum, decide_eq_true_eq]
      exact Or.inl (by omega)
    · rw [pyLower_eq_single _ (by omega), toLower_eq_self (Char.toLower c) (by omega)]
  · have he := toLower_eq_self c hu
    rw [he]
    exact ⟨h, hA, by rw [pyLower_eq_single c (by omega), he]⟩

/-- The underscore is a word character, not whitespace, and fixed by the
case mapping. -/
theorem underscore_fp :
    isWordChar '_' = true ∧ isSpaceChar '_' = false ∧ pyLower '_' = ['_'] :=
  ⟨by decide, by decide, by decide⟩

/-- `Char.toLower` is idempotent. -/
theorem toLower_toLower (c : Char) :
    Char.toLower (Char.toLower c) = Char.toLower c := by
  by_cases hu : 65 ≤ c.toNat ∧ c.toNat ≤ 90
  · have ht := toLower_toNat_upper c hu
    apply toLower_eq_self
    omega
  · have h1 := toLower_eq_self c hu
    rw [h1]
    exact h1

/-- `dropWhile` is the identity when the head fails the predicate. -/
theorem dropWhile_eq_self_of_head (p : Char → Bool) (l : List Char)
    (h : ∀ c, l.head? = some c → p c = false) : l.dropWhile p = l := by
  cases l with
  | nil => rfl
  | cons a as =>
    rw [List.dropWhile_cons, if_neg]
    simp [h a rfl]

/-- `dropWhile` is the identity when no element satisfies the predicate. -/
theorem dropWhile_eq_self_of_all (p : Char → Bool) (l : List Char)
    (h : ∀ c ∈ l, p c = false) : l.dropWhile p = l := by
  cases l with
  | nil => rfl
  | cons a as =>
    exact dropWhile_eq_self_of_head p _ (fun c hc => by
      simp only [List.head?_cons, Option.some_inj] at hc
      exact hc ▸ h a (List.mem_cons_self a as))

/-- The head of `dropWhile p l` fails `p`. -/
theorem head_dropWhile_false (p : Char → Bool) (l : List Char) :
    ∀ c, (l.dropWhile p).head? = some c → p c = false := by
  induction l with
  | nil => intro c h; cases h
  | cons a as ih =>
    intro c h
    rw [List.dropWhile_cons] at h
    by_cases hp : p a = true
    · rw [if_pos hp] at h
      exact ih c h
    · rw [if_neg hp] at h
      simp only [List.head?_cons, Option.some_inj] at h
      subst h
      simpa using hp

/-- `stripEnds` is the identity when no element satisfies the predicate. -/
theorem stripEnds_eq_self_of_all (p : Char → Bool) (l : List Char)
    (h : ∀ c ∈ l, p c = false) : stripEnds p l = l := by
  unfold stripEnds
  rw [dropWhile_eq_self_of_all p l h,
    dropWhile_eq_self_of_all p l.reverse (fun c hc => h c (List.mem_reverse.mp hc)),
    List.reverse_reverse]

/-- `stripEnds` is the identity when both ends fail the predicate. -/
theorem stripEnds_eq_self_of_ends (p : Char → Bool) (l : List Char)
    (hh : ∀ c, l.head? = some c → p c = false)
    (hl : ∀ c, l.getLast? = some c → p c = false) : stripEnds p l = l := by
  unfold stripEnds
  rw [dropWhile_eq_self_of_head p l hh,
    dropWhile_eq_self_of_head p l.reverse
      (fun c hc => hl c (by rwa [List.head?_reverse] at hc)),
    List.reverse_reverse]

/-- The head of `stripEnds p l` fails `p`. -/
theorem stripEnds_head_false (p : Char → Bool) (l : List Char) :
    ∀ c, (stripEnds p l).head? = some c → p c = false := by
  intro c hc
  unfold stripEnds at hc
  rw [List.head?_reverse] at hc
  obtain ⟨t, ht⟩ := List.dropWhile_suffix (l := (l.dropWhile p).reverse) p
  have hA : ((l.dropWhile p).reverse).getLast? = some c := by
    rw [← ht, List.getLast?_append, hc]
    rfl
  rw [List.getLast?_reverse] at hA
  exact head_dropWhile_false p l c hA

/-- The last element of `stripEnds p l` fails `p`. -/
theorem stripEnds_getLast_false (p : Char → Bool) (l : List Char) :
    ∀ c, (stripEnds p l).getLast? = some c → p c = false := by
  intro c hc
  unfold stripEnds at hc
  rw [List.getLast?_reverse] at hc
  exact head_dropWhile_false p _ c hc

/-- `stripEnds p l` is a contiguous fragment of `l`. -/
theorem stripEnds_contiguous (p : Char → Bool) (l : List Char) :
    stripEnds p l <:+: l := by
  have h1 : l.dropWhile p <:+ l := List.dropWhile_suffix p
  obtain ⟨t, ht⟩ := List.dropWhile_suffix (l := (l.dropWhile p).reverse) p
  have h3 : stripEnds p l <+: l.dropWhile p := by
    refine ⟨t.reverse, ?_⟩
    show stripEnds p l ++ t.reverse = l.dropWhile p
    unfold stripEnds
    rw [← List.reverse_append, ht, List.reverse_reverse]
  exact h3.isInfix.trans h1.isInfix

/-- Identity of the collapse worker on predicate-free input. -/
theorem collapseRunsAux_eq_self_of_all (p : Char → Bool) (rep : Char) :
    ∀ l : List Char, (∀ c ∈ l, p c = false) →
      collapseRunsAux p rep false l = l := by
  intro l
  induction l with
  | nil => intro _; rfl
  | cons a as ih =>
    intro h
    unfold collapseRunsAux
    rw [if_neg (by simp [h a (List.mem_cons_self a as)])]
    rw [ih (fun c hc => h c (List.mem_cons_of_mem a hc))]

/-- `collapseRuns` is the identity on predicate-free input. -/
theorem collapseRuns_eq_self_of_all (p : Char → Bool) (rep : Char) (l : List Char)
    (h : ∀ c ∈ l, p c = false) : collapseRuns p rep l = l :=
  collapseRunsAux_eq_self_of_all p rep l h

/-- Every character of the collapse output is the replacement or a
predicate-free character of the input. -/
theorem mem_collapseRunsAux (p : Char → Bool) (rep : Char) :
    ∀ (l : List Char) (b : Bool) (c : Char), c ∈ collapseRunsAux p rep b l →
      c = rep ∨ (c ∈ l ∧ p c = false) := by
  intro l
  induction l with
  | nil => intro b c hc; cases hc
  | cons a as ih =>
    intro b c hc
    unfold collapseRunsAux at hc
    by_cases hp : p a = true
    · rw [if_pos hp] at hc
      cases b with
      | true =>
        rcases ih true c hc with h | ⟨h1, h2⟩
        · exact Or.inl h
        · exact Or.inr ⟨List.mem_cons_of_mem a h1, h2⟩
      | false =>
        rcases List.mem_cons.mp hc with rfl | hc2
        · exact Or.inl rfl
        · rcases ih true c hc2 with h | ⟨h1, h2⟩
          · exact Or.inl h
          · exact Or.inr ⟨List.mem_cons_of_mem a h1, h2⟩
    · rw [if_neg hp] at hc
      rcases List.mem_cons.mp hc with rfl | hc2
      · exact Or.inr ⟨List.mem_cons_self _ _, by simpa using hp⟩
      · rcases ih false c hc2 with h | ⟨h1, h2⟩
        · exact Or.inl h
        · exact Or.inr ⟨List.mem_cons_of_mem a h1, h2⟩

/-- After the worker emits the replacement, the next emitted character
fails the predicate. -/
theorem collapseRunsAux_true_head (p : Char → Bool) (rep : Char) :
    ∀ (l : List Char) (c : Char) (cs : List Char),
      collapseRunsAux p rep true l = c :: cs → p c = false := by
  intro l
  induction l with
  | nil => intro c cs h; cases h
  | cons a as ih =>
    intro c cs h
    unfold collapseRunsAux at h
    by_cases hp : p a = true
    · rw [if_pos hp] at h
      exact ih c cs h
    · rw [if_neg hp] at h
      injection h with h1 _
      subst h1
      simpa using hp

/-- The collapse output never has two adjacent predicate characters. -/
theorem chain_collapseRunsAux (p : Char → Bool) (rep : Char) :
    ∀ (l : List Char) (b : Bool),
      List.Chain' (fun a c => ¬(p a = true ∧ p c = true))
        (collapseRunsAux p rep b l) := by
  intro l
  induction l with
  | nil => intro b; exact List.chain'_nil
  | cons a as ih =>
    intro b
    unfold collapseRunsAux
    by_cases hp : p a = true
    · rw [if_pos hp]
      cases b with
      | true =>
        rw [if_pos (by decide : (true = true))]
        exact ih true
      | false =>
        rw [if_neg (by decide : ¬(false = true))]
        rw [List.chain'_cons']
        refine ⟨?_, ih true⟩
        intro y hy
        rcases hx : collapseRunsAux p rep true as with _ | ⟨d, tl⟩
        · rw [hx] at hy; cases hy
        · rw [hx] at hy
          have hdy : d = y := by simpa using hy
          have hpy : p y = false :=
            hdy ▸ collapseRunsAux_true_head p rep as d tl hx
          intro hcon
          rw [hpy] at hcon
          cases hcon.2
    · rw [if_neg hp]
      rw [List.chain'_cons']
      refine ⟨?_, ih false⟩
      intro y _
      intro hcon
      exact hp hcon.1

/-- On input with no two adjacent predicate characters, all of whose
predicate characters equal the replacement, the collapse worker is the
identity. -/
theorem collapseRunsAux_eq_self_of_chain (p : Char → Bool) (rep : Char) :
    ∀ l : List Char,
      List.Chain' (fun a c => ¬(p a = true ∧ p c = true)) l →
      (∀ c ∈ l, p c = true → c = rep) →
      collapseRunsAux p rep false l = l ∧
        (∀ a as, l = a :: as → p a = false → collapseRunsAux p rep true l = l) := by
  intro l
  induction l with
  | nil => exact fun _ _ => ⟨rfl, fun a as h => by cases h⟩
  | cons a as ih =>
    intro hch hrep
    have hch' : List.Chain' (fun a c => ¬(p a = true ∧ p c = true)) as :=
      hch.tail
    have hrep' : ∀ c ∈ as, p c = true → c = rep :=
      fun c hc => hrep c (List.mem_cons_of_mem a hc)
    obtain ⟨ihf, iht⟩ := ih hch' hrep'
    constructor
    · unfold collapseRunsAux
      by_cases hp : p a = true
      · rw [if_pos hp, if_neg (by decide : ¬(false = true))]
        have ha : a = rep := hrep a (List.mem_cons_self a as) hp
        cases as with
        | nil => rw [ha]; rfl
        | cons a2 as2 =>
          have hpa2 : p a2 = false := by
            have hrel := List.chain'_cons.mp hch
            rcases Bool.eq_false_or_eq_true (p a2) with h2 | h2
            · exfalso; exact hrel.1 ⟨hp, h2⟩
            · exact h2
          rw [iht a2 as2 rfl hpa2, ha]
      · rw [if_neg hp, ihf]
    · intro a' as' heq hpa
      injection heq with h1 h2
      subst h1; subst h2
      unfold collapseRunsAux
      rw [if_neg (by simp [hpa]), ihf]

/-- `map` is the identity when `f` fixes every element. -/
theorem map_eq_self_of (f : Char → Char) (l : List Char)
    (h : ∀ c ∈ l, f c = c) : l.map f = l := by
  induction l with
  | nil => rfl
  | cons a as ih =>
    rw [List.map_cons, h a (List.mem_cons_self a as),
      ih (fun c hc => h c (List.mem_cons_of_mem a hc))]

/-- A `flatMap` over singleton images is a `map`. -/
theorem flatMap_eq_map_of (f : Char → List Char) (g : Char → Char) (l : List Char)
    (h : ∀ c ∈ l, f c = [g c]) : l.flatMap f = l.map g := by
  induction l with
  | nil => rfl
  | cons a as ih =>
    rw [List.flatMap_cons, List.map_cons, h a (List.mem_cons_self a as),
      ih (fun c hc => h c (List.mem_cons_of_mem a hc))]
    rfl

/-- A `flatMap` over fixed points is the identity. -/
theorem flatMap_eq_self_of (f : Char → List Char) (l : List Char)
    (h : ∀ c ∈ l, f c = [c]) : l.flatMap f = l :=
  (flatMap_eq_map_of f id l h).trans (List.map_id l)

/-- Structure of a cleaned ASCII column name: every character is a word
character, not whitespace and fixed by the case mapping; no two adjacent
underscores occur; neither end is an underscore. -/
theorem cleanChars_normal_ascii (l : List Char) (hA : ∀ c ∈ l, c.toNat < 128) :
    (∀ c ∈ cleanChars l,
      isWordChar c = true ∧ isSpaceChar c = false ∧ pyLower c = [c]) ∧
    List.Chain' (fun a b => ¬(a = '_' ∧ b = '_')) (cleanChars l) ∧
    (∀ c, (cleanChars l).head? = some c → c ≠ '_') ∧
    (∀ c, (cleanChars l).getLast? = some c → c ≠ '_') := by
  set l2 := (stripEnds isSpaceChar l).map
    (fun c => if isWordChar c || isSpaceChar c then c else '_') with hl2
  set l3 := collapseRuns isSpaceChar '_' l2 with hl3
  set l4 := l3.flatMap pyLower with hl4
  set l5 := collapseRuns (fun c => c == '_') '_' l4 with hl5
  have hr0 : cleanChars l = stripEnds (fun c => c == '_') l5 := rfl
  have h2 : ∀ c ∈ l2,
      (isWordChar c = true ∨ isSpaceChar c = true) ∧ c.toNat < 128 := by
    intro c hc
    rw [hl2] at hc
    obtain ⟨a, ha, rfl⟩ := List.mem_map.mp hc
    have haA : a.toNat < 128 :=
      hA a ((stripEnds_contiguous isSpaceChar l).subset ha)
    by_cases hcc : (isWordChar a || isSpaceChar a) = true
    · rw [if_pos hcc]
      exact ⟨(Bool.or_eq_true _ _).mp hcc, haA⟩
    · rw [if_neg hcc]
      exact ⟨Or.inl underscore_fp.1, by decide⟩
  have h3 : ∀ c ∈ l3,
      isWordChar c = true ∧ isSpaceChar c = false ∧ c.toNat < 128 := by
    intro c hc
    rcases mem_collapseRunsAux isSpaceChar '_' l2 false c hc with rfl | ⟨hc2, hns⟩
    · exact ⟨underscore_fp.1, underscore_fp.2.1, by decide⟩
    · obtain ⟨hws, hascii⟩ := h2 c hc2
      rcases hws with hw | hs
      · exact ⟨hw, hns, hascii⟩
      · rw [hs] at hns; cases hns
  have hflat : l4 = l3.map Char.toLower := by
    rw [hl4]
    exact flatMap_eq_map_of pyLower Char.toLower l3
      (fun c hc => pyLower_eq_single c (by have := (h3 c hc).2.2; omega))
  have h4 : ∀ c ∈ l4,
      isWordChar c = true ∧ isSpaceChar c = false ∧ pyLower c = [c] := by
    intro c hc
    rw [hflat] at hc
    obtain ⟨a, ha, rfl⟩ := List.mem_map.mp hc
    obtain ⟨hw, -, hascii⟩ := h3 a ha
    obtain ⟨hw2, -, hfix⟩ := ascii_word_toLower_fp a hascii hw
    exact ⟨hw2, wordChar_not_space _ hw2, hfix⟩
  have h5 : ∀ c ∈ l5,
      isWordChar c = true ∧ isSpaceChar c = false ∧ pyLower c = [c] := by
    intro c hc
    rcases mem_collapseRunsAux (fun c => c == '_') '_' l4 false c hc with rfl | ⟨hc2, -⟩
    · exact underscore_fp
    · exact h4 c hc2
  have h5chain : List.Chain' (fun a b => ¬(a = '_' ∧ b = '_')) l5 := by
    refine (chain_collapseRunsAux (fun c => c == '_') '_' l4 false).imp ?_
    intro a b hab hcon
    exact hab ⟨by simp [hcon.1], by simp [hcon.2]⟩
  refine ⟨?_, ?_, ?_, ?_⟩
  · rw [hr0]
    intro c hc
    exact h5 c ((stripEnds_contiguous _ l5).subset hc)
  · rw [hr0]
    exact h5chain.infix (stripEnds_contiguous _ l5)
  · rw [hr0]
    intro c hc
    have := stripEnds_head_false (fun c => c == '_') l5 c hc
    simpa using this
  · rw [hr0]
    intro c hc
    have := stripEnds_getLast_false (fun c => c == '_') l5 c hc
    simpa using this

/-- A list of non-whitespace word characters fixed by the case mapping,
with no double and no edge underscores, is a fixed point of the cleaning
pipeline. -/
theorem cleanChars_eq_self (r : List Char)
    (hP1 : ∀ c ∈ r,
      isWordChar c = true ∧ isSpaceChar c = false ∧ pyLower c = [c])
    (hP2 : List.Chain' (fun a b => ¬(a = '_' ∧ b = '_')) r)
    (hP3h : ∀ c, r.head? = some c → c ≠ '_')
    (hP3l : ∀ c, r.getLast? = some c → c ≠ '_') :
    cleanChars r = r := by
  show stripEnds (fun c => c == '_')
      (collapseRuns (fun c => c == '_') '_'
        ((collapseRuns isSpaceChar '_'
          ((stripEnds isSpaceChar r).map
            (fun c => if isWordChar c || isSpaceChar c then c else '_'))).flatMap
              pyLower)) = r
  rw [stripEnds_eq_self_of_all isSpaceChar r (fun c hc => (hP1 c hc).2.1)]
  rw [map_eq_self_of _ r (fun c hc => by rw [if_pos (by simp [(hP1 c hc).1])])]
  rw [collapseRuns_eq_self_of_all isSpaceChar '_' r (fun c hc => (hP1 c hc).2.1)]
  rw [flatMap_eq_self_of pyLower r (fun c hc => (hP1 c hc).2.2)]
  have hcoll : collapseRuns (fun c => c == '_') '_' r = r := by
    refine (collapseRunsAux_eq_self_of_chain (fun c => c == '_') '_' r ?_ ?_).1
    · refine hP2.imp ?_
      intro a b hab hcon
      exact hab ⟨by simpa using hcon.1, by simpa using hcon.2⟩
    · intro c _ h
      simpa using h
  rw [hcoll]
  exact stripEnds_eq_self_of_ends _ r
    (fun c hc => beq_eq_false_iff_ne.mpr (hP3h c hc))
    (fun c hc => beq_eq_false_iff_ne.mpr (hP3l c hc))

/-- **C8**, counterexample.  Column-name normalization is not idempotent:
the header `İ` (U+0130) is a Unicode word character kept by the
`[^\w\s]` substitution, and `str.lower()` expands it to `i` followed by
the combining dot above U+0307, so the cleaned name is the two-character
string `i̇`; cleaning that output again replaces the combining mark
(which is not a word character) by an underscore and strips it, yielding
the different name `i`. -/
theorem c8_counterexample :
    clean_column_name (String.mk [Char.ofNat 0x130]) =
      String.mk [Char.ofNat 0x69, Char.ofNat 0x307] ∧
    clean_column_name (String.mk [Char.ofNat 0x69, Char.ofNat 0x307]) =
      String.mk [Char.ofNat 0x69] ∧
    clean_column_name (clean_column_name (String.mk [Char.ofNat 0x130])) ≠
      clean_column_name (String.mk [Char.ofNat 0x130]) :=
  ⟨by decide, by decide, by decide⟩

/-- **C8** (amended).  Column-name normalization is idempotent on every
header consisting of ASCII characters: applying `_clean_column_name` to
its own output returns that output unchanged.  (Beyond ASCII the
property fails, by the counterexample above.) -/
theorem c8_clean_column_name_ascii_idempotent (s : String)
    (hA : ∀ c ∈ s.toList, c.toNat < 128) :
    clean_column_name (clean_column_name s) = clean_column_name s := by
  have hunnamed : clean_column_name "unnamed_column" = "unnamed_column" := by decide
  by_cases h0 : stripEnds isSpaceChar s.toList = []
  · have h1 : clean_column_name s = "unnamed_column" := by
      unfold clean_column_name
      rw [if_pos h0]
    rw [h1, hunnamed]
  · by_cases h1 : cleanChars s.toList = []
    · have h2 : clean_column_name s = "unnamed_column" := by
        unfold clean_column_name
        rw [if_neg h0]
        show (if cleanChars s.toList = [] then "unnamed_column"
          else String.mk (cleanChars s.toList)) = _
        rw [if_pos h1]
      rw [h2, hunnamed]
    · have h2 : clean_column_name s = String.mk (cleanChars s.toList) := by
        unfold clean_column_name
        rw [if_neg h0]
        show (if cleanChars s.toList = [] then "unnamed_column"
          else String.mk (cleanChars s.toList)) = _
        rw [if_neg h1]
      rw [h2]
      obtain ⟨hP1, hP2, hP3h, hP3l⟩ := cleanChars_normal_ascii s.toList hA
      have hfix := cleanChars_eq_self (cleanChars s.toList) hP1 hP2 hP3h hP3l
      show clean_column_name (String.mk (cleanChars s.toList)) = _
      unfold clean_column_name
      have htl : (String.mk (cleanChars s.toList)).toList = cleanChars s.toList := rfl
      rw [htl]
      rw [stripEnds_eq_self_of_all isSpaceChar _ (fun c hc => (hP1 c hc).2.1)]
      rw [if_neg h1]
      show (if cleanChars (cleanChars s.toList) = [] then "unnamed_column"
        else String.mk (cleanChars (cleanChars s.toList))) = _
      rw [hfix, if_neg h1]

/-- Witness for **C8** at a concrete messy ASCII header. -/
theorem c8_clean_column_name_ascii_idempotent_witness :
    clean_column_name (clean_column_name "  Sales Amount ($)") =
      clean_column_name "  Sales Amount ($)" :=
  c8_clean_column_name_ascii_idempotent "  Sales Amount ($)" (by decide)

end DataAgent
